import Mathlib

/-!
# Peer resolver of `interceptor/builder.go`

A shallow embedding of `Builder.PeerInfo`, `Builder.PeerName`, `Builder.PeerIP` and
`Builder.grpcHeaderVal`, together with the library routines they call
(`metadata.FromIncomingContext`, `metadata.New`, `MD.Get`, `peer.FromContext`,
`strings.ToLower`, `net.ParseIP`, `net.SplitHostPort`).

Conventions of the embedding:

* a Go `string` is a Lean `String`; byte indices become character indices, which agrees
  with Go on every delimiter the code looks for (they are all ASCII);
* a Go map `map[string][]string` is an association list; the order of the list stored in a
  context stands for the iteration order `range` takes in one call, and two calls on one Go
  context are modelled by two lists that are permutations of each other;
* a nil map, nil pointer or nil interface is `none`;
* a run-time panic is the `error` branch of `Except GoPanic`;
* the receiver `b *Builder` is mutated in place in Go; here every method returns the
  new receiver state next to its result; a second rendering of the same methods keeps all
  `Builder` structs and map objects in one memory and is proved to agree with the first;
* `unicode.ToLower` (a table of the Go runtime) is a parameter `U` of everything that
  lower-cases a key; theorems hold for every such table.
-/

set_option autoImplicit false

namespace Interceptor

/-! ## Library: strings -/

/-- Run-time panics of the Go program. -/
inductive GoPanic where
  | nilDereference
  deriving DecidableEq, Repr

/-- The ASCII branch of `strings.ToLower`: `c += 'a' - 'A'` for `'A' <= c <= 'Z'`. -/
def asciiLower (c : Char) : Char :=
  if 65 ≤ c.toNat ∧ c.toNat ≤ 90 then Char.ofNat (c.toNat + 32) else c

/-- Go `strings.ToLower`: strings made of ASCII bytes only are lower-cased bytewise, any other
string is mapped rune by rune through `unicode.ToLower`, here the parameter `U`. -/
def strings_ToLower (U : Char → Char) (s : String) : String :=
  if s.data.all (fun c => decide (c.toNat < 128)) then String.mk (s.data.map asciiLower)
  else String.mk (s.data.map U)

/-- Go `bytealg.IndexByteString`: index of the first occurrence of `c`, `none` for `-1`. -/
def indexByte : List Char → Char → Option Nat
  | [], _ => none
  | x :: xs, c => if x = c then some 0 else (indexByte xs c).map (· + 1)

/-- Go `bytealg.LastIndexByteString`: index of the last occurrence of `c`, `none` for `-1`. -/
def lastIndexByte : List Char → Char → Option Nat
  | [], _ => none
  | x :: xs, c =>
    match lastIndexByte xs c with
    | some i => some (i + 1)
    | none => if x = c then some 0 else none

/-! ## Library: `net.SplitHostPort` -/

/-- The `*net.AddrError` reasons of `net.SplitHostPort`. -/
inductive AddrError where
  | missingPort
  | tooManyColons
  | missingCloseBracket
  | unexpectedOpenBracket
  | unexpectedCloseBracket
  deriving DecidableEq, Repr

/-- Tail of `net.SplitHostPort`: the two checks for stray brackets after positions `j` and `k`,
then `port = hostport[i+1:]`. -/
def splitHostPortFinish (hp host : List Char) (i j k : Nat) : Except AddrError (String × String) :=
  if (indexByte (hp.drop j) '[').isSome then .error .unexpectedOpenBracket
  else if (indexByte (hp.drop k) ']').isSome then .error .unexpectedCloseBracket
  else .ok (String.mk host, String.mk (hp.drop (i + 1)))

/-- Go `net.SplitHostPort`, returning `(host, port)` or the error. -/
def net_SplitHostPort (hostport : String) : Except AddrError (String × String) :=
  let hp := hostport.data
  match lastIndexByte hp ':' with
  | none => .error .missingPort
  | some i =>
    if hp.head? = some '[' then
      match indexByte hp ']' with
      | none => .error .missingCloseBracket
      | some e =>
        if e + 1 = hp.length then .error .missingPort
        else if e + 1 = i then splitHostPortFinish hp ((hp.take e).drop 1) i 1 (e + 1)
        else if (hp.drop (e + 1)).head? = some ':' then .error .tooManyColons
        else .error .missingPort
    else
      let host := hp.take i
      if (indexByte host ':').isSome then .error .tooManyColons
      else splitHostPortFinish hp host i 0 0

/-! ## Library: `net.ParseIP` (through `netip.ParseAddr`)

Only the verdict of the parser is used by the caller (`net.ParseIP(s) != nil`), so the
model follows the control flow of the parser and leaves out the writes to the 16 address
bytes. -/

/-- Decimal digit test `s[i] >= '0' && s[i] <= '9'`. -/
def isDigit (c : Char) : Bool := decide (48 ≤ c.toNat ∧ c.toNat ≤ 57)

/-- Loop of `netip.parseIPv4Fields` over the remaining characters. `prev` is the character
before the current one (`none` at index 0); `val`, `pos`, `digLen` are the Go locals.
Returns `true` when the Go function returns a nil error. -/
def parseIPv4FieldsLoop : List Char → Option Char → Nat → Nat → Nat → Bool
  | [], _, _, pos, _ => decide (¬ pos < 3)
  | c :: rest, prev, val, pos, digLen =>
    if isDigit c then
      if digLen = 1 ∧ val = 0 then false
      else
        let val := val * 10 + (c.toNat - 48)
        if val > 255 then false
        else parseIPv4FieldsLoop rest (some c) val pos (digLen + 1)
    else if c = '.' then
      if prev = none ∨ rest = [] ∨ prev = some '.' then false
      else if pos = 3 then false
      else parseIPv4FieldsLoop rest (some c) 0 (pos + 1) 0
    else false

/-- Go `netip.parseIPv4Fields(in, off, end, fields)` on the substring `s = in[off:end]`. -/
def parseIPv4Fields (s : List Char) : Bool := parseIPv4FieldsLoop s none 0 0 0

/-- Value of a hexadecimal digit, `none` for any other character. -/
def hexVal (c : Char) : Option Nat :=
  if 48 ≤ c.toNat ∧ c.toNat ≤ 57 then some (c.toNat - 48)
  else if 97 ≤ c.toNat ∧ c.toNat ≤ 102 then some (c.toNat - 97 + 10)
  else if 65 ≤ c.toNat ∧ c.toNat ≤ 70 then some (c.toNat - 65 + 10)
  else none

/-- Inner loop of `netip.parseIPv6` reading one hexadecimal group, started at `off = 0`,
`acc = 0` (`acc` is a `uint32`). `none` is a parse error; otherwise the final `off`, `acc`
and `s[off:]`. -/
def hexGroup : List Char → Nat → Nat → Option (Nat × Nat × List Char)
  | [], off, acc => some (off, acc, [])
  | c :: cs, off, acc =>
    match hexVal c with
    | none => some (off, acc, c :: cs)
    | some d =>
      let acc := (acc * 16 + d) % 4294967296
      if off > 3 then none
      else if acc > 65535 then none
      else hexGroup cs (off + 1) acc

/-- Main loop `for i < 16` of `netip.parseIPv6`. The index `i` only takes even values and
grows by 2 per round, so the loop is indexed by `n`, the number of 16-bit groups still
free: `i = 16 - 2 * n`. `none` is a parse error; otherwise the values of `s`, `i` and
`ellipsis` on leaving the loop (`ellipsis = none` stands for `-1`). -/
def parseIPv6Loop : Nat → List Char → Option Nat → Option (List Char × Nat × Option Nat)
  | 0, s, ellipsis => some (s, 16, ellipsis)
  | n + 1, s, ellipsis =>
    let i := 16 - 2 * (n + 1)
    match hexGroup s 0 0 with
    | none => none
    | some (off, _, rest) =>
      if off = 0 then none
      else if rest.head? = some '.' then
        if ellipsis = none ∧ i ≠ 12 then none
        else if i + 4 > 16 then none
        else if parseIPv4Fields s then some ([], i + 4, ellipsis)
        else none
      else
        let i := i + 2
        match rest with
        | [] => some ([], i, ellipsis)
        | c :: s1 =>
          if c ≠ ':' then none
          else
            match s1 with
            | [] => none
            | c1 :: s2 =>
              if c1 = ':' then
                if ellipsis ≠ none then none
                else
                  match s2 with
                  | [] => some ([], i, some i)
                  | _ :: _ => parseIPv6Loop n s2 (some i)
              else parseIPv6Loop n s1 ellipsis

/-- Go `netip.parseIPv6`: `none` is a parse error, `some zone` a parsed address with its zone. -/
def parseIPv6 (input : List Char) : Option (List Char) :=
  let split : Option (List Char × List Char) :=
    match indexByte input '%' with
    | none => some (input, [])
    | some i => if input.drop (i + 1) = [] then none else some (input.take i, input.drop (i + 1))
  match split with
  | none => none
  | some (s, zone) =>
    let finish (r : Option (List Char × Nat × Option Nat)) : Option (List Char) :=
      match r with
      | none => none
      | some (s, i, ellipsis) =>
        if s ≠ [] then none
        else if i < 16 then (if ellipsis = none then none else some zone)
        else if ellipsis ≠ none then none
        else some zone
    if s.take 2 = [':', ':'] then
      if s.drop 2 = [] then some zone
      else finish (parseIPv6Loop 8 (s.drop 2) (some 0))
    else finish (parseIPv6Loop 8 s none)

/-- Loop of `netip.ParseAddr` over the characters `l` still to inspect of the input `s`:
the first `.` sends the whole input to the IPv4 parser, the first `:` to the IPv6 parser, a
`%` met before either is an error, and so is reaching the end. -/
def parseAddrScan (s : List Char) : List Char → Option (List Char)
  | [] => none
  | c :: cs =>
    if c = '.' then (if parseIPv4Fields s then some [] else none)
    else if c = ':' then parseIPv6 s
    else if c = '%' then none
    else parseAddrScan s cs

/-- Go `netip.ParseAddr`: dispatch on the first of `.`, `:`, `%`. `none` is a parse error,
`some zone` a parsed address with its zone (empty for IPv4). -/
def netip_ParseAddr (s : List Char) : Option (List Char) :=
  parseAddrScan s s

/-- Go `net.ParseIP(s) != nil`: the address parses and carries no zone. -/
def net_ParseIP (s : String) : Bool :=
  match netip_ParseAddr s.data with
  | some zone => decide (zone = [])
  | none => false

/-! ## Library: gRPC metadata and peer -/

/-- Go `metadata.MD`, a `map[string][]string`. -/
abbrev MD := List (String × List String)

/-- Go map assignment `md[key] = vals`. -/
def MD.set (md : MD) (key : String) (vals : List String) : MD :=
  (key, vals) :: md.filter (fun e => e.1 != key)

/-- Go map read `md[key]`: the stored values, or the nil slice when the key is absent. -/
def MD.index (md : MD) (key : String) : List String :=
  match md.lookup key with
  | some vs => vs
  | none => []

/-- Go `MD.Get`: `k = strings.ToLower(k); return md[k]`. -/
def MD.Get (U : Char → Char) (md : MD) (k : String) : List String :=
  md.index (strings_ToLower U k)

/-- Go `metadata.New(m)`: every key lower-cased, `md[key] = append(md[key], val)`. -/
def metadata_New (U : Char → Char) (m : List (String × String)) : MD :=
  m.foldl (fun md e =>
    let key := strings_ToLower U e.1
    md.set key (md.index key ++ [e.2])) []

/-- Go `peer.Peer`, reduced to the field the resolver reads: `Addr`, a `net.Addr` interface
that is nil (`none`) or holds an address, given by the value of its `String()` method. -/
structure Peer where
  Addr : Option String
  deriving DecidableEq, Repr

/-- A non-nil `context.Context`, reduced to the two values the resolver reads from it:
the map stored under `mdIncomingKey` (`none` when no value of type `MD` is stored) and the
`*Peer` stored under `peerKey` (`none` when no value is stored, `some none` for a stored nil
pointer). -/
structure Ctx where
  incomingMD : Option MD
  peer : Option (Option Peer)
  deriving DecidableEq, Repr

/-- Go `context.Context`, an interface value: `none` is the nil interface. -/
abbrev Context := Option Ctx

/-- Go `metadata.FromIncomingContext`, returning `(MD, bool)` as an option (`none` for
`(nil, false)`). Its first statement is `ctx.Value(mdIncomingKey{})`, a method call on the
interface value, which panics on a nil interface. Otherwise the stored map is copied to a
fresh map with every key lower-cased. The copy ranges over the stored map in the order of
the list `c.incomingMD`, which is the order `range` takes in this one call: Go picks a new
order at every call, so a second call on the same Go context is a call on a context whose
list is a permutation of this one (`Ctx.sameContext`). -/
def metadata_FromIncomingContext (U : Char → Char) : Context → Except GoPanic (Option MD)
  | none => .error .nilDereference
  | some c =>
    match c.incomingMD with
    | none => .ok none
    | some md => .ok (some (md.foldl (fun out e => out.set (strings_ToLower U e.1) e.2) []))

/-- Go `peer.FromContext`, returning `(p *Peer, ok bool)`. Its only statement is
`p, ok = ctx.Value(peerKey{}).(*Peer)`, which panics on a nil interface. -/
def peer_FromContext : Context → Except GoPanic (Option Peer × Bool)
  | none => .error .nilDereference
  | some c =>
    match c.peer with
    | none => .ok (none, false)
    | some p => .ok (p, true)

/-! ## `interceptor/builder.go` -/

/-- Go `type Builder struct { md metadata.MD }`; `md = none` is the nil map of a fresh
builder. -/
structure Builder where
  md : Option MD
  deriving DecidableEq, Repr

/-- Go `type PeerInfo struct { Name string; IP string }`. -/
structure PeerInfo where
  Name : String
  IP : String
  deriving DecidableEq, Repr

/-- The zero value `Builder{}`: nothing cached yet. -/
def Builder.fresh : Builder := Builder.mk none

/-- Go `(b *Builder) grpcHeaderVal(ctx, key)`: the returned string and the receiver after
the call. -/
def Builder.grpcHeaderVal (U : Char → Char) (b : Builder) (ctx : Context) (key : String) :
    Except GoPanic (String × Builder) := do
  let b ←
    if b.md = none then do
      let r ← metadata_FromIncomingContext U ctx
      match r with
      | some md => pure (Builder.mk (some md))
      | none => pure (Builder.mk (some (metadata_New U [])))
    else pure b
  if ctx = none ∨ key = "" then
    return ("", b)
  let values :=
    match b.md with
    | some md => md.Get U key
    | none => []
  match values with
  | [] => return ("", b)
  | v :: _ => return (v, b)

/-- Go `(b *Builder) PeerName(ctx)`. -/
def Builder.PeerName (U : Char → Char) (b : Builder) (ctx : Context) :
    Except GoPanic (String × Builder) :=
  b.grpcHeaderVal U ctx "x-peer-name"

/-- Go `(b *Builder) PeerIP(ctx)`. -/
def Builder.PeerIP (U : Char → Char) (b : Builder) (ctx : Context) :
    Except GoPanic (String × Builder) := do
  let (clientIP, b) ← b.grpcHeaderVal U ctx "x-client-ip"
  if clientIP ≠ "" ∧ net_ParseIP clientIP = true then
    return (clientIP, b)
  let (pr, ok) ← peer_FromContext ctx
  match ok, pr with
  | true, some p =>
    match p.Addr with
    | none => return ("", b)
    | some addr =>
      match net_SplitHostPort addr with
      | .error _ => if net_ParseIP addr = true then return (addr, b) else return ("", b)
      | .ok (host, _) => return (host, b)
  | _, _ => return ("", b)

/-- Go `(b *Builder) PeerInfo(ctx)`; the returned pointer is never nil, so the result is the
struct it points to. The field expressions are evaluated in source order. -/
def Builder.PeerInfo (U : Char → Char) (b : Builder) (ctx : Context) :
    Except GoPanic (PeerInfo × Builder) := do
  if ctx = none then
    return (PeerInfo.mk "" "", b)
  let (name, b) ← b.PeerName U ctx
  let (ip, b) ← b.PeerIP U ctx
  return (PeerInfo.mk name ip, b)

/-! ## Auxiliary definitions used to state and prove the properties -/

/-- The map a builder holds after the caching step of `grpcHeaderVal` on a non-nil context:
its own map when it has one, otherwise the lower-cased copy of the context's map, or the
empty map when the context stores none. -/
def cacheAfter (U : Char → Char) (b : Builder) (c : Ctx) : MD :=
  match b.md with
  | some md => md
  | none =>
    match c.incomingMD with
    | some raw => raw.foldl (fun out e => out.set (strings_ToLower U e.1) e.2) []
    | none => []

/-- First element of a value list, the empty string for an empty list. -/
def firstValue : List String → String
  | [] => ""
  | v :: _ => v

/-- What lines 48-65 of `PeerIP` compute from the connection descriptor of a non-nil
context. -/
def connectionTier (c : Ctx) : String :=
  match c.peer with
  | some (some p) =>
    match p.Addr with
    | none => ""
    | some addr =>
      match net_SplitHostPort addr with
      | .error _ => if net_ParseIP addr = true then addr else ""
      | .ok (host, _) => host
  | _ => ""

/-- The context `c` with every entry of its stored map removed whose key lower-cases to
`key`. -/
def Ctx.withoutHeader (U : Char → Char) (c : Ctx) (key : String) : Ctx :=
  Ctx.mk (c.incomingMD.map (fun raw => raw.filter (fun e => strings_ToLower U e.1 != key))) c.peer

/-- The calls `b.PeerName(ctx)` then `b.PeerIP(ctx)` on one resolver: the name, the IP and the
resolver after both calls. -/
def nameThenIP (U : Char → Char) (b : Builder) (ctx : Context) :
    Except GoPanic (String × String × Builder) := do
  let (name, b) ← b.PeerName U ctx
  let (ip, b) ← b.PeerIP U ctx
  return (name, ip, b)

/-- The calls `b.PeerIP(ctx)` then `b.PeerName(ctx)` on one resolver: the name, the IP and the
resolver after both calls. -/
def ipThenName (U : Char → Char) (b : Builder) (ctx : Context) :
    Except GoPanic (String × String × Builder) := do
  let (ip, b) ← b.PeerIP U ctx
  let (name, b) ← b.PeerName U ctx
  return (name, ip, b)

/-- The three public queries of a resolver. -/
inductive Query where
  | peerName
  | peerIP
  | peerInfo
  deriving DecidableEq, Repr

/-- The value a query returns: a string for `PeerName` and `PeerIP`, a pair for `PeerInfo`. -/
inductive Answer where
  | text (s : String)
  | info (p : PeerInfo)
  deriving DecidableEq, Repr

/-- One public call on a resolver, chosen by `q`. -/
def Builder.ask (U : Char → Char) (b : Builder) (q : Query) (ctx : Context) :
    Except GoPanic (Answer × Builder) :=
  match q with
  | .peerName => do
    let (s, b) ← b.PeerName U ctx
    return (Answer.text s, b)
  | .peerIP => do
    let (s, b) ← b.PeerIP U ctx
    return (Answer.text s, b)
  | .peerInfo => do
    let (p, b) ← b.PeerInfo U ctx
    return (Answer.info p, b)

/-- A sequence of calls on a single resolver: the answers in order and the final resolver. -/
def runOne (U : Char → Char) : List (Query × Context) → Builder →
    Except GoPanic (List Answer × Builder)
  | [], b => .ok ([], b)
  | (q, ctx) :: rest, b => do
    let (ans, b) ← b.ask U q ctx
    let (answers, b) ← runOne U rest b
    return (ans :: answers, b)

/-- Two values of `Ctx` that stand for one Go context as seen by two calls of
`metadata.FromIncomingContext`: the same connection descriptor and the same stored map, each
listed in the order `range` takes in that call. Go does not fix that order, so the two lists
are permutations of each other. -/
def Ctx.sameContext (c1 c2 : Ctx) : Prop :=
  c1.peer = c2.peer ∧
    match c1.incomingMD, c2.incomingMD with
    | none, none => True
    | some raw1, some raw2 => raw1.Perm raw2
    | _, _ => False

/-- No two keys of the map stored in the context lower-case to the same key. -/
def Ctx.noCollidingKeys (U : Char → Char) (c : Ctx) : Prop :=
  match c.incomingMD with
  | none => True
  | some raw => (raw.map (fun e => strings_ToLower U e.1)).Nodup

/-- The relation `Ctx.sameContext` on possibly nil contexts. -/
def sameCallContext (x y : Context) : Prop :=
  match x, y with
  | none, none => True
  | some c1, some c2 => c1.sameContext c2
  | _, _ => False

/-- The condition `Ctx.noCollidingKeys` on a possibly nil context. -/
def noCollidingKeys (U : Char → Char) (x : Context) : Prop :=
  match x with
  | none => True
  | some c => c.noCollidingKeys U

/-- Two resolver states that cache the same map: both unset, or two maps that hold the same
values under every key (a Go map has no entry order). -/
def Builder.sameCache (b1 b2 : Builder) : Prop :=
  match b1.md, b2.md with
  | none, none => True
  | some m1, some m2 => ∀ key, m1.index key = m2.index key
  | _, _ => False

/-! ## `interceptor/builder.go` with all resolvers in one memory

The same four methods once more, this time as Go runs them: the receiver is a pointer to a
`Builder` struct, the field `md` holds a reference to a map object, and all structs and map
objects live in one memory that every call may read and write. -/

/-- Addresses of `Builder` structs and of map objects. -/
abbrev Ptr := Nat

/-- The memory of the program: `fields p` is the field `md` of the `Builder` struct at address
`p` (`none` for the nil map, otherwise the address of a map object), and `maps` lists the
map objects allocated so far, a map object's address being its position. -/
structure Memory where
  fields : Ptr → Option Ptr
  maps : List MD

/-- The empty memory: every `Builder` is the zero value, no map object exists. -/
def Memory.empty : Memory := Memory.mk (fun _ => none) []

/-- The map object at an address. -/
def Memory.mapAt (m : Memory) (a : Ptr) : MD := m.maps.getD a []

/-- Allocation of a new map object with the given content: its address and the new memory. -/
def Memory.alloc (m : Memory) (md : MD) : Ptr × Memory :=
  (m.maps.length, Memory.mk m.fields (m.maps ++ [md]))

/-- The assignment `b.md = v` for the struct at address `b`. -/
def Memory.setField (m : Memory) (b : Ptr) (v : Option Ptr) : Memory :=
  Memory.mk (fun p => if p = b then v else m.fields p) m.maps

/-- The `Builder` value seen through the pointer `p`: its field with the map it refers to. -/
def Memory.builder (m : Memory) (p : Ptr) : Builder :=
  Builder.mk ((m.fields p).map m.mapAt)

/-- Every map reference held by a `Builder` points to an allocated map object. -/
def Memory.wellFormed (m : Memory) : Prop :=
  ∀ p a, m.fields p = some a → a < m.maps.length

/-- Go `metadata.FromIncomingContext` in memory: the map `out` it returns is a new object
(`make(MD, len(md))`) filled with the lower-cased copy; `none` is the nil map of
`(nil, false)`. -/
def metadata_FromIncomingContextAt (U : Char → Char) (m : Memory) (ctx : Context) :
    Except GoPanic (Option Ptr × Memory) := do
  let r ← metadata_FromIncomingContext U ctx
  match r with
  | some md =>
    let (a, m) := m.alloc md
    return (some a, m)
  | none => return (none, m)

/-- Go `metadata.New` in memory: the map it returns is a new object. -/
def metadata_NewAt (U : Char → Char) (m : Memory) (l : List (String × String)) : Ptr × Memory :=
  m.alloc (metadata_New U l)

/-- Go `md.Get(k)` through a map reference; reading the nil map gives the nil slice. -/
def Memory.Get (U : Char → Char) (m : Memory) (md : Option Ptr) (k : String) : List String :=
  match md with
  | some a => (m.mapAt a).Get U k
  | none => []

/-- Go `(b *Builder) grpcHeaderVal(ctx, key)` on the struct at address `b`. -/
def grpcHeaderValAt (U : Char → Char) (m : Memory) (b : Ptr) (ctx : Context) (key : String) :
    Except GoPanic (String × Memory) := do
  let m ←
    if m.fields b = none then do
      let (md, m) ← metadata_FromIncomingContextAt U m ctx
      match md with
      | some a => pure (m.setField b (some a))
      | none =>
        let (a, m) := metadata_NewAt U m []
        pure (m.setField b (some a))
    else pure m
  if ctx = none ∨ key = "" then
    return ("", m)
  match m.Get U (m.fields b) key with
  | [] => return ("", m)
  | v :: _ => return (v, m)

/-- Go `(b *Builder) PeerName(ctx)` on the struct at address `b`. -/
def PeerNameAt (U : Char → Char) (m : Memory) (b : Ptr) (ctx : Context) :
    Except GoPanic (String × Memory) :=
  grpcHeaderValAt U m b ctx "x-peer-name"

/-- Go `(b *Builder) PeerIP(ctx)` on the struct at address `b`. -/
def PeerIPAt (U : Char → Char) (m : Memory) (b : Ptr) (ctx : Context) :
    Except GoPanic (String × Memory) := do
  let (clientIP, m) ← grpcHeaderValAt U m b ctx "x-client-ip"
  if clientIP ≠ "" ∧ net_ParseIP clientIP = true then
    return (clientIP, m)
  let (pr, ok) ← peer_FromContext ctx
  match ok, pr with
  | true, some p =>
    match p.Addr with
    | none => return ("", m)
    | some addr =>
      match net_SplitHostPort addr with
      | .error _ => if net_ParseIP addr = true then return (addr, m) else return ("", m)
      | .ok (host, _) => return (host, m)
  | _, _ => return ("", m)

/-- Go `(b *Builder) PeerInfo(ctx)` on the struct at address `b`. -/
def PeerInfoAt (U : Char → Char) (m : Memory) (b : Ptr) (ctx : Context) :
    Except GoPanic (PeerInfo × Memory) := do
  if ctx = none then
    return (PeerInfo.mk "" "", m)
  let (name, m) ← PeerNameAt U m b ctx
  let (ip, m) ← PeerIPAt U m b ctx
  return (PeerInfo.mk name ip, m)

/-- One public call on the resolver at address `b`, chosen by `q`. -/
def askAt (U : Char → Char) (m : Memory) (b : Ptr) (q : Query) (ctx : Context) :
    Except GoPanic (Answer × Memory) :=
  match q with
  | .peerName => do
    let (s, m) ← PeerNameAt U m b ctx
    return (Answer.text s, m)
  | .peerIP => do
    let (s, m) ← PeerIPAt U m b ctx
    return (Answer.text s, m)
  | .peerInfo => do
    let (p, m) ← PeerInfoAt U m b ctx
    return (Answer.info p, m)

/-- A program: a sequence of calls, each on the resolver at some address, with some query, on
some context. The result lists the answers in order, each with the address that gave it,
and the final memory. -/
def runMem (U : Char → Char) : List (Ptr × Query × Context) → Memory →
    Except GoPanic (List (Ptr × Answer) × Memory)
  | [], m => .ok ([], m)
  | (b, q, ctx) :: rest, m => do
    let (ans, m) ← askAt U m b q ctx
    let (trace, m) ← runMem U rest m
    return ((b, ans) :: trace, m)

/-- The calls of a program that are made on the resolver at address `p`. -/
def callsOf (p : Ptr) (steps : List (Ptr × Query × Context)) : List (Query × Context) :=
  (steps.filter (fun s => decide (s.1 = p))).map (fun s => s.2)

/-- The answers of a run that the resolver at address `p` gave. -/
def answersOf (p : Ptr) (trace : List (Ptr × Answer)) : List Answer :=
  (trace.filter (fun t => decide (t.1 = p))).map (fun t => t.2)

/-- Two call sequences that make the same queries on the same Go contexts, the second
possibly meeting other iteration orders of the stored maps; the contexts have no keys that
collide after lower-casing. -/
def sameCalls (U : Char → Char) (calls1 calls2 : List (Query × Context)) : Prop :=
  List.Forall₂ (fun x y => x.1 = y.1 ∧ sameCallContext x.2 y.2 ∧ noCollidingKeys U x.2)
    calls1 calls2

/-- A call on the resolver at address `b` in memory `m`, with outcome `rm`, agrees with the
same call on the resolver value `m.builder b`, with outcome `r`: both panic alike, or both
return the same value, the memory afterwards shows the resolver state the value-level call
returns, stays well formed, and shows every other resolver as before. -/
def simulates {α : Type} (m : Memory) (b : Ptr) (r : Except GoPanic (α × Builder))
    (rm : Except GoPanic (α × Memory)) : Prop :=
  match r with
  | .error e => rm = .error e
  | .ok (v, b1) =>
    ∃ m1, rm = .ok (v, m1) ∧ m1.builder b = b1 ∧ m1.wellFormed ∧
      ∀ p, p ≠ b → m1.builder p = m.builder p

/-! ## Basic facts about the embedding -/

theorem toLower_client_ip (U : Char → Char) :
    strings_ToLower U "x-client-ip" = "x-client-ip" := by
  rfl

theorem toLower_peer_name (U : Char → Char) :
    strings_ToLower U "x-peer-name" = "x-peer-name" := by
  rfl

theorem grpcHeaderVal_cached (U : Char → Char) (md : MD) (ctx : Context) (key : String) :
    (Builder.mk (some md)).grpcHeaderVal U ctx key =
      .ok (if ctx = none ∨ key = "" then "" else firstValue (md.Get U key),
        Builder.mk (some md)) := by
  by_cases hk : ctx = none ∨ key = ""
  · simp [Builder.grpcHeaderVal, bind, Except.bind, pure, Except.pure, hk]
  · simp only [Builder.grpcHeaderVal, bind, Except.bind, pure, Except.pure, hk, if_false]
    cases hv : MD.Get U md key <;> simp [firstValue]

theorem grpcHeaderVal_some (U : Char → Char) (b : Builder) (c : Ctx) (key : String) :
    b.grpcHeaderVal U (some c) key =
      .ok (if key = "" then "" else firstValue ((cacheAfter U b c).Get U key),
        Builder.mk (some (cacheAfter U b c))) := by
  rcases b with ⟨_ | md⟩
  · have h := grpcHeaderVal_cached U (cacheAfter U (Builder.mk none) c) (some c) key
    simp only [reduceCtorEq, false_or] at h
    rw [← h]
    cases hraw : c.incomingMD <;>
      simp [Builder.grpcHeaderVal, metadata_FromIncomingContext, hraw, cacheAfter, metadata_New,
        bind, Except.bind, pure, Except.pure]
  · simpa [cacheAfter] using grpcHeaderVal_cached U md (some c) key

theorem PeerIP_some (U : Char → Char) (b : Builder) (c : Ctx) :
    b.PeerIP U (some c) =
      .ok (if firstValue ((cacheAfter U b c).Get U "x-client-ip") ≠ "" ∧
            net_ParseIP (firstValue ((cacheAfter U b c).Get U "x-client-ip")) = true
          then firstValue ((cacheAfter U b c).Get U "x-client-ip")
          else connectionTier c,
        Builder.mk (some (cacheAfter U b c))) := by
  simp only [Builder.PeerIP, grpcHeaderVal_some, bind, Except.bind, pure, Except.pure]
  have hkey : ("x-client-ip" = "") = False := by decide
  simp only [hkey, if_false]
  split
  · rfl
  · rcases c with ⟨raw, _ | _ | ⟨_ | addr⟩⟩ <;>
      simp [peer_FromContext, connectionTier]
    cases hs : net_SplitHostPort addr with
    | error e => by_cases hp : net_ParseIP addr = true <;> simp [hp]
    | ok r => rfl

theorem PeerName_some (U : Char → Char) (b : Builder) (c : Ctx) :
    b.PeerName U (some c) =
      .ok (firstValue ((cacheAfter U b c).index "x-peer-name"),
        Builder.mk (some (cacheAfter U b c))) := by
  have hkey : ("x-peer-name" = "") = False := by decide
  simp only [Builder.PeerName, grpcHeaderVal_some, hkey, if_false, MD.Get, toLower_peer_name]

theorem cacheAfter_fresh_of_incoming (U : Char → Char) (c : Ctx) (md : MD)
    (h : metadata_FromIncomingContext U (some c) = .ok (some md)) :
    cacheAfter U Builder.fresh c = md := by
  cases hraw : c.incomingMD with
  | none => simp [metadata_FromIncomingContext, hraw] at h
  | some raw =>
    simp only [metadata_FromIncomingContext, hraw, Except.ok.injEq, Option.some.injEq] at h
    simp [cacheAfter, Builder.fresh, hraw, h]

theorem cacheAfter_fresh_of_no_incoming (U : Char → Char) (c : Ctx)
    (h : metadata_FromIncomingContext U (some c) = .ok none) :
    cacheAfter U Builder.fresh c = [] := by
  cases hraw : c.incomingMD with
  | none => simp [cacheAfter, Builder.fresh, hraw]
  | some raw => simp [metadata_FromIncomingContext, hraw] at h

/-- C1. On a fresh resolver and a non-nil context whose incoming metadata (the map the
accessor returns) maps `x-client-ip` to a list whose first value is non-empty and accepted by
`net.ParseIP`, `PeerIP` returns that first value unchanged, whatever the context stores as
connection descriptor; the metadata map is cached on the way. -/
theorem PeerIP_valid_header_returned (U : Char → Char) (c : Ctx) (md : MD) (v : String)
    (rest : List String)
    (hmd : metadata_FromIncomingContext U (some c) = .ok (some md))
    (hval : md.index "x-client-ip" = v :: rest)
    (hne : v ≠ "") (hip : net_ParseIP v = true) :
    Builder.fresh.PeerIP U (some c) = .ok (v, Builder.mk (some md)) := by
  rw [PeerIP_some, cacheAfter_fresh_of_incoming U c md hmd]
  simp [MD.Get, toLower_client_ip, hval, firstValue, hne, hip]

theorem PeerIP_valid_header_returned_witness :
    metadata_FromIncomingContext id
        (some (Ctx.mk (some [("x-client-ip", ["203.0.113.5", "junk"])])
          (some (some (Peer.mk (some "198.51.100.7:4433")))))) =
        .ok (some [("x-client-ip", ["203.0.113.5", "junk"])]) ∧
      MD.index [("x-client-ip", ["203.0.113.5", "junk"])] "x-client-ip" =
        "203.0.113.5" :: ["junk"] ∧
      "203.0.113.5" ≠ "" ∧ net_ParseIP "203.0.113.5" = true ∧
      Builder.fresh.PeerIP id
        (some (Ctx.mk (some [("x-client-ip", ["203.0.113.5", "junk"])])
          (some (some (Peer.mk (some "198.51.100.7:4433")))))) =
        .ok ("203.0.113.5", Builder.mk (some [("x-client-ip", ["203.0.113.5", "junk"])])) :=
  ⟨by rfl, by rfl, by decide, by rfl,
    PeerIP_valid_header_returned id _ _ _ _ (by rfl) (by rfl) (by decide) (by rfl)⟩


theorem lookup_filter_ne (md : MD) (k k' : String) (h : k ≠ k') :
    (md.filter (fun e => e.1 != k')).lookup k = md.lookup k := by
  induction md with
  | nil => rfl
  | cons e md ih =>
    rcases e with ⟨a, vs⟩
    by_cases ha : a = k'
    · subst ha
      have hka : (k == a) = false := by simpa using h
      simp [List.filter, List.lookup, hka, ih]
    · have hne : (a != k') = true := by simpa using ha
      simp only [List.filter, hne, List.lookup]
      cases hk : k == a <;> simp [ih]

theorem lookup_set (md : MD) (k k' : String) (vs : List String) :
    (md.set k' vs).lookup k = if k = k' then some vs else md.lookup k := by
  by_cases h : k = k'
  · subst h
    simp [MD.set, List.lookup]
  · have hb : (k == k') = false := by simpa using h
    simp [MD.set, List.lookup, hb, h, lookup_filter_ne md k k' h]

theorem lookup_normalise_none (U : Char → Char) (key : String) (raw acc : MD)
    (hraw : ∀ e ∈ raw, strings_ToLower U e.1 ≠ key) (hacc : acc.lookup key = none) :
    (raw.foldl (fun out e => out.set (strings_ToLower U e.1) e.2) acc).lookup key = none := by
  induction raw generalizing acc with
  | nil => simpa using hacc
  | cons e raw ih =>
    simp only [List.foldl]
    apply ih
    · intro x hx
      exact hraw x (List.mem_cons_of_mem _ hx)
    · rw [lookup_set]
      have := hraw e (List.mem_cons_self _ _)
      simp [Ne.symm this, hacc]

theorem withoutHeader_index (U : Char → Char) (c : Ctx) (key : String) :
    (cacheAfter U Builder.fresh (c.withoutHeader U key)).index key = [] := by
  cases hraw : c.incomingMD with
  | none => simp [cacheAfter, Builder.fresh, Ctx.withoutHeader, hraw, MD.index]
  | some raw =>
    have h := lookup_normalise_none U key
      (raw.filter (fun e => strings_ToLower U e.1 != key)) [] (by
        intro e he
        simpa using (List.mem_filter.mp he).2) rfl
    simp [cacheAfter, Builder.fresh, Ctx.withoutHeader, hraw, MD.index, h]

theorem connectionTier_withoutHeader (U : Char → Char) (c : Ctx) (key : String) :
    connectionTier (c.withoutHeader U key) = connectionTier c := by
  rfl

/-- C2. On a fresh resolver and a non-nil context whose incoming metadata maps `x-client-ip`
to a list whose first value is non-empty but rejected by `net.ParseIP`, `PeerIP` does not
fail: it returns the same string as on the context with the `x-client-ip` header removed,
namely the result of the connection tier. -/
theorem PeerIP_malformed_header_falls_back (U : Char → Char) (c : Ctx) (md : MD) (v : String)
    (rest : List String)
    (hmd : metadata_FromIncomingContext U (some c) = .ok (some md))
    (hval : md.index "x-client-ip" = v :: rest)
    (_hne : v ≠ "") (hbad : net_ParseIP v = false) :
    ∃ ip b1 b2, Builder.fresh.PeerIP U (some c) = .ok (ip, b1) ∧
      Builder.fresh.PeerIP U (some (c.withoutHeader U "x-client-ip")) = .ok (ip, b2) ∧
      ip = connectionTier c := by
  refine ⟨connectionTier c, Builder.mk (some md),
    Builder.mk (some (cacheAfter U Builder.fresh (c.withoutHeader U "x-client-ip"))), ?_, ?_, rfl⟩
  · rw [PeerIP_some, cacheAfter_fresh_of_incoming U c md hmd]
    simp [MD.Get, toLower_client_ip, hval, firstValue, hbad]
  · rw [PeerIP_some]
    simp [MD.Get, toLower_client_ip, withoutHeader_index, firstValue,
      connectionTier_withoutHeader]

theorem PeerIP_malformed_header_falls_back_witness :
    metadata_FromIncomingContext id
        (some (Ctx.mk (some [("x-client-ip", ["not-an-ip"])])
          (some (some (Peer.mk (some "198.51.100.7:4433")))))) =
        .ok (some [("x-client-ip", ["not-an-ip"])]) ∧
      MD.index [("x-client-ip", ["not-an-ip"])] "x-client-ip" = "not-an-ip" :: [] ∧
      "not-an-ip" ≠ "" ∧ net_ParseIP "not-an-ip" = false ∧
      (∃ ip b1 b2,
        Builder.fresh.PeerIP id
            (some (Ctx.mk (some [("x-client-ip", ["not-an-ip"])])
              (some (some (Peer.mk (some "198.51.100.7:4433")))))) = .ok (ip, b1) ∧
          Builder.fresh.PeerIP id
            (some (Ctx.withoutHeader id (Ctx.mk (some [("x-client-ip", ["not-an-ip"])])
              (some (some (Peer.mk (some "198.51.100.7:4433"))))) "x-client-ip")) =
            .ok (ip, b2) ∧
          ip = connectionTier (Ctx.mk (some [("x-client-ip", ["not-an-ip"])])
              (some (some (Peer.mk (some "198.51.100.7:4433")))))) ∧
      connectionTier (Ctx.mk (some [("x-client-ip", ["not-an-ip"])])
          (some (some (Peer.mk (some "198.51.100.7:4433"))))) = "198.51.100.7" :=
  ⟨by rfl, by rfl, by decide, by rfl,
    PeerIP_malformed_header_falls_back id _ _ _ _ (by rfl) (by rfl) (by decide) (by rfl),
    by rfl⟩


theorem indexByte_isSome_iff (s : List Char) (c : Char) : (indexByte s c).isSome ↔ c ∈ s := by
  induction s with
  | nil => simp [indexByte]
  | cons x xs ih =>
    by_cases hx : x = c
    · simp [indexByte, hx]
    · have hx2 : ¬ c = x := fun h => hx h.symm
      simp [indexByte, hx, hx2, ih]

theorem indexByte_some (s : List Char) (c : Char) (i : Nat) (h : indexByte s c = some i) :
    s = s.take i ++ c :: s.drop (i + 1) ∧ c ∉ s.take i := by
  induction s generalizing i with
  | nil => simp [indexByte] at h
  | cons x xs ih =>
    by_cases hx : x = c
    · simp [indexByte, hx] at h
      subst h
      simp [hx]
    · simp only [indexByte, hx, if_false, Option.map_eq_some'] at h
      obtain ⟨j, hj, rfl⟩ := h
      obtain ⟨h1, h2⟩ := ih j hj
      have hx2 : ¬ c = x := fun h => hx h.symm
      refine ⟨?_, ?_⟩
      · simp only [List.take_succ_cons, List.drop_succ_cons, List.cons_append]
        rw [← h1]
      · simp [hx2, h2]

theorem lastIndexByte_some (s : List Char) (c : Char) (i : Nat)
    (h : lastIndexByte s c = some i) :
    s = s.take i ++ c :: s.drop (i + 1) ∧ c ∉ s.drop (i + 1) := by
  induction s generalizing i with
  | nil => simp [lastIndexByte] at h
  | cons x xs ih =>
    cases hl : lastIndexByte xs c with
    | some j =>
      simp only [lastIndexByte, hl, Option.some.injEq] at h
      subst h
      obtain ⟨h1, h2⟩ := ih j hl
      refine ⟨?_, ?_⟩
      · simp only [List.take_succ_cons, List.drop_succ_cons, List.cons_append]
        rw [← h1]
      · simpa using h2
    | none =>
      simp only [lastIndexByte, hl] at h
      by_cases hx : x = c
      · simp only [hx, if_true, Option.some.injEq] at h
        subst h
        have hnot : c ∉ xs := by
          clear ih
          induction xs with
          | nil => simp
          | cons y ys ihy =>
            cases hy : lastIndexByte ys c with
            | some k => simp [lastIndexByte, hy] at hl
            | none =>
              simp only [lastIndexByte, hy] at hl
              by_cases hyc : y = c
              · simp [hyc] at hl
              · have hyc2 : ¬ c = y := fun h => hyc h.symm
                simp [hyc2, ihy hy]
        simp [hx, hnot]
      · simp [hx] at h


theorem drop_eq_cons_of_split (s : List Char) (c : Char) (i : Nat)
    (h : s = s.take i ++ c :: s.drop (i + 1)) : s.drop i = c :: s.drop (i + 1) := by
  have h2 : s.take i ++ s.drop i = s.take i ++ c :: s.drop (i + 1) := by
    rw [List.take_append_drop]; exact h
  exact List.append_cancel_left h2

theorem splitHostPortFinish_ok (hp host : List Char) (i j k : Nat) (r : String × String)
    (h : splitHostPortFinish hp host i j k = .ok r) :
    r = (String.mk host, String.mk (hp.drop (i + 1))) ∧ '[' ∉ hp.drop j ∧ ']' ∉ hp.drop k := by
  unfold splitHostPortFinish at h
  by_cases h1 : (indexByte (hp.drop j) '[').isSome
  · simp [h1] at h
  · by_cases h2 : (indexByte (hp.drop k) ']').isSome
    · simp [h1, h2] at h
    · simp only [h1, h2, if_false, Except.ok.injEq, Bool.false_eq_true] at h
      rw [indexByte_isSome_iff] at h1 h2
      exact ⟨h.symm, h1, h2⟩

/-- Shape of a successful `net.SplitHostPort`: the input is `host:port` with no colon in
`host`, or `[host]:port`; in both cases `host` has no bracket. -/
theorem splitHostPort_ok_form (addr host port : String)
    (h : net_SplitHostPort addr = .ok (host, port)) :
    ((addr = host ++ ":" ++ port ∧ ':' ∉ host.data) ∨ addr = "[" ++ host ++ "]:" ++ port) ∧
      '[' ∉ host.data ∧ ']' ∉ host.data := by
  unfold net_SplitHostPort at h
  simp only at h
  cases hl : lastIndexByte addr.data ':' with
  | none => simp [hl] at h
  | some i =>
    simp only [hl] at h
    have hcolon := drop_eq_cons_of_split _ _ _ (lastIndexByte_some _ _ _ hl).1
    by_cases hb : addr.data.head? = some '['
    · simp only [hb, if_true] at h
      cases he : indexByte addr.data ']' with
      | none => simp [he] at h
      | some e =>
        simp only [he] at h
        by_cases h1 : e + 1 = addr.data.length
        · rw [if_pos h1] at h
          simp at h
        · by_cases h2 : e + 1 = i
          · rw [if_neg h1, if_pos h2] at h
            obtain ⟨hr, ho, hc⟩ := splitHostPortFinish_ok _ _ _ _ _ _ h
            obtain ⟨hsplit, hnot⟩ := indexByte_some _ _ _ he
            have hclose := drop_eq_cons_of_split _ _ _ hsplit
            simp only [Prod.mk.injEq] at hr
            obtain ⟨hhost, hport⟩ := hr
            obtain ⟨tl, htl⟩ : ∃ tl, addr.data = '[' :: tl := by
              cases hd : addr.data with
              | nil => simp [hd] at hb
              | cons x tl => simp [hd] at hb; exact ⟨tl, by rw [hb]⟩
            have he0 : e ≠ 0 := by
              intro h0
              rw [h0, htl] at he
              simp [indexByte] at he
            obtain ⟨e1, rfl⟩ := Nat.exists_eq_succ_of_ne_zero he0
            have hdata : addr.data = '[' :: (host.data ++ ']' :: ':' :: port.data) := by
              have e1t : addr.data.take (e1 + 1) = '[' :: host.data := by
                rw [hhost]
                simp [htl]
              have e2 : addr.data.drop (e1 + 1) = ']' :: ':' :: port.data := by
                rw [hclose, h2, hcolon, hport]
              calc addr.data = addr.data.take (e1 + 1) ++ addr.data.drop (e1 + 1) :=
                    (List.take_append_drop _ _).symm
                _ = '[' :: (host.data ++ ']' :: ':' :: port.data) := by rw [e1t, e2]; rfl
            refine ⟨Or.inr ?_, ?_, ?_⟩
            · apply String.ext
              simp [String.data_append, hdata]
            · rw [hhost]
              intro hm
              apply ho
              have : (addr.data.take (e1 + 1)).drop 1 = (addr.data.drop 1).take e1 := by
                simp [htl]
              simp only at hm
              rw [this] at hm
              exact List.mem_of_mem_take hm
            · rw [hhost]
              intro hm
              exact hnot (List.mem_of_mem_drop hm)
          · rw [if_neg h1, if_neg h2] at h
            split at h <;> simp at h
    · simp only [hb, if_false] at h
      by_cases hc : (indexByte (addr.data.take i) ':').isSome
      · simp [hc] at h
      · simp only [hc, if_false, Bool.false_eq_true] at h
        obtain ⟨hr, ho, hcl⟩ := splitHostPortFinish_ok _ _ _ _ _ _ h
        rw [indexByte_isSome_iff] at hc
        simp only [Prod.mk.injEq] at hr
        obtain ⟨hhost, hport⟩ := hr
        simp only [List.drop_zero] at ho hcl
        have hdata : addr.data = host.data ++ ':' :: port.data := by
          rw [hhost, hport]
          exact (lastIndexByte_some _ _ _ hl).1
        refine ⟨Or.inl ⟨?_, ?_⟩, ?_, ?_⟩
        · apply String.ext
          simp [String.data_append, hdata]
        · rw [hhost]; exact hc
        · rw [hhost]; exact fun hm => ho (List.mem_of_mem_take hm)
        · rw [hhost]; exact fun hm => hcl (List.mem_of_mem_take hm)


/-- With no usable `x-client-ip` header in the incoming metadata, a fresh resolver answers
`PeerIP` from the connection tier. -/
theorem PeerIP_fresh_of_no_usable_header (U : Char → Char) (c : Ctx)
    (hno : ∀ md v rest, metadata_FromIncomingContext U (some c) = .ok (some md) →
      md.index "x-client-ip" = v :: rest → v = "" ∨ net_ParseIP v = false) :
    Builder.fresh.PeerIP U (some c) =
      .ok (connectionTier c, Builder.mk (some (cacheAfter U Builder.fresh c))) := by
  rw [PeerIP_some]
  have hun : ¬ (firstValue ((cacheAfter U Builder.fresh c).Get U "x-client-ip") ≠ "" ∧
      net_ParseIP (firstValue ((cacheAfter U Builder.fresh c).Get U "x-client-ip")) = true) := by
    simp only [MD.Get, toLower_client_ip]
    cases hraw : c.incomingMD with
    | none => simp [cacheAfter, Builder.fresh, hraw, MD.index, firstValue]
    | some raw =>
      have hacc : metadata_FromIncomingContext U (some c) = .ok (some
          (raw.foldl (fun out e => out.set (strings_ToLower U e.1) e.2) [])) := by
        simp [metadata_FromIncomingContext, hraw]
      rw [cacheAfter_fresh_of_incoming U c _ hacc]
      cases hv : MD.index (raw.foldl (fun out e => out.set (strings_ToLower U e.1) e.2) [])
          "x-client-ip" with
      | nil => simp [firstValue]
      | cons v rest =>
        rcases hno _ v rest hacc hv with h | h <;> simp [firstValue, h]
  rw [if_neg hun]

/-- C3. On a fresh resolver and a non-nil context with no usable `x-client-ip` header whose
connection descriptor carries an address that `net.SplitHostPort` splits into `host` and
`port`, `PeerIP` returns `host` as it is (it is not validated); the address is then
`host:port` with no colon in `host`, or `[host]:port`, and `host` contains no bracket. -/
theorem PeerIP_host_of_split_address (U : Char → Char) (c : Ctx) (p : Peer)
    (addr host port : String)
    (hno : ∀ md v rest, metadata_FromIncomingContext U (some c) = .ok (some md) →
      md.index "x-client-ip" = v :: rest → v = "" ∨ net_ParseIP v = false)
    (hpeer : c.peer = some (some p)) (haddr : p.Addr = some addr)
    (hsplit : net_SplitHostPort addr = .ok (host, port)) :
    (∃ b1, Builder.fresh.PeerIP U (some c) = .ok (host, b1)) ∧
      ((addr = host ++ ":" ++ port ∧ ':' ∉ host.data) ∨ addr = "[" ++ host ++ "]:" ++ port) ∧
      '[' ∉ host.data ∧ ']' ∉ host.data := by
  refine ⟨⟨Builder.mk (some (cacheAfter U Builder.fresh c)), ?_⟩,
    splitHostPort_ok_form addr host port hsplit⟩
  rw [PeerIP_fresh_of_no_usable_header U c hno]
  simp [connectionTier, hpeer, haddr, hsplit]

theorem PeerIP_host_of_split_address_witness :
    (∀ md v rest,
        metadata_FromIncomingContext id
            (some (Ctx.mk none (some (some (Peer.mk (some "[2001:db8::1]:443")))))) =
          .ok (some md) →
        md.index "x-client-ip" = v :: rest → v = "" ∨ net_ParseIP v = false) ∧
      (Ctx.mk none (some (some (Peer.mk (some "[2001:db8::1]:443"))))).peer =
        some (some (Peer.mk (some "[2001:db8::1]:443"))) ∧
      (Peer.mk (some "[2001:db8::1]:443")).Addr = some "[2001:db8::1]:443" ∧
      net_SplitHostPort "[2001:db8::1]:443" = .ok ("2001:db8::1", "443") ∧
      ((∃ b1, Builder.fresh.PeerIP id
            (some (Ctx.mk none (some (some (Peer.mk (some "[2001:db8::1]:443")))))) =
          .ok ("2001:db8::1", b1)) ∧
        (("[2001:db8::1]:443" = "2001:db8::1" ++ ":" ++ "443" ∧
            ':' ∉ ("2001:db8::1" : String).data) ∨
          "[2001:db8::1]:443" = "[" ++ "2001:db8::1" ++ "]:" ++ "443") ∧
        '[' ∉ ("2001:db8::1" : String).data ∧ ']' ∉ ("2001:db8::1" : String).data) :=
  ⟨fun _ _ _ h => by simp [metadata_FromIncomingContext] at h, rfl, rfl, by rfl,
    PeerIP_host_of_split_address id _ _ _ _ _
      (fun _ _ _ h => by simp [metadata_FromIncomingContext] at h) rfl rfl (by rfl)⟩


/-! ## An accepted IP literal is never split by `net.SplitHostPort` -/

theorem lastIndexByte_none_of_not_mem (s : List Char) (c : Char) (h : c ∉ s) :
    lastIndexByte s c = none := by
  induction s with
  | nil => rfl
  | cons x xs ih =>
    have hx : ¬ x = c := fun e => h (by simp [e])
    have hxs : c ∉ xs := fun e => h (List.mem_cons_of_mem _ e)
    simp [lastIndexByte, ih hxs, hx]

theorem parseIPv4FieldsLoop_chars (s : List Char) (prev : Option Char) (val pos digLen : Nat)
    (h : parseIPv4FieldsLoop s prev val pos digLen = true) :
    ∀ c ∈ s, isDigit c = true ∨ c = '.' := by
  induction s generalizing prev val pos digLen with
  | nil => simp
  | cons x xs ih =>
    unfold parseIPv4FieldsLoop at h
    by_cases hd : isDigit x = true
    · simp only [hd, if_true] at h
      split at h
      · simp at h
      · split at h
        · simp at h
        · intro c hc
          rcases List.mem_cons.mp hc with rfl | hc
          · exact Or.inl hd
          · exact ih _ _ _ _ h c hc
    · simp only [hd, if_false, Bool.false_eq_true] at h
      by_cases hdot : x = '.'
      · simp only [hdot, if_true] at h
        split at h
        · simp at h
        · split at h
          · simp at h
          · intro c hc
            rcases List.mem_cons.mp hc with rfl | hc
            · exact Or.inr hdot
            · exact ih _ _ _ _ h c hc
      · simp [hdot] at h

theorem parseIPv4Fields_no_colon (s : List Char) (h : parseIPv4Fields s = true) : ':' ∉ s := by
  intro hm
  rcases parseIPv4FieldsLoop_chars s none 0 0 0 h ':' hm with h1 | h1
  · exact absurd h1 (by decide)
  · exact absurd h1 (by decide)

theorem hexVal_colon : hexVal ':' = none := by decide

theorem hexVal_open_bracket : hexVal '[' = none := by decide

theorem hexGroup_count_colon (s : List Char) (off acc off1 acc1 : Nat) (rest : List Char)
    (h : hexGroup s off acc = some (off1, acc1, rest)) :
    rest.count ':' = s.count ':' := by
  induction s generalizing off acc with
  | nil =>
    simp only [hexGroup, Option.some.injEq, Prod.mk.injEq] at h
    rw [← h.2.2]
  | cons c cs ih =>
    unfold hexGroup at h
    cases hv : hexVal c with
    | none =>
      simp only [hv, Option.some.injEq, Prod.mk.injEq] at h
      rw [← h.2.2]
    | some d =>
      simp only [hv] at h
      have hc : ¬ c = ':' := by
        intro e
        rw [e, hexVal_colon] at hv
        exact absurd hv (by simp)
      split at h
      · simp at h
      · split at h
        · simp at h
        · rw [ih _ _ h]
          simp [List.count_cons, hc]


/-- Bookkeeping of colons along `parseIPv6Loop`: the loop never gains colons, an ellipsis once
set stays set, setting one costs two colons, and leaving the loop at `i = 16` without an
ellipsis costs one colon for all but at most two of the `n` rounds. -/
theorem parseIPv6Loop_colons (n : Nat) :
    ∀ (s : List Char) (e : Option Nat) (s1 : List Char) (i1 : Nat) (e1 : Option Nat),
      parseIPv6Loop n s e = some (s1, i1, e1) →
      s1.count ':' ≤ s.count ':' ∧
      (e ≠ none → e1 ≠ none) ∧
      (e = none → e1 ≠ none → s1.count ':' + 2 ≤ s.count ':') ∧
      (e1 = none → 16 ≤ i1 → n + s1.count ':' ≤ s.count ':' + 2) := by
  induction n with
  | zero =>
    intro s e s1 i1 e1 h
    simp only [parseIPv6Loop, Option.some.injEq, Prod.mk.injEq] at h
    obtain ⟨rfl, rfl, rfl⟩ := h
    refine ⟨le_refl _, fun h => h, fun h1 h2 => absurd h1 h2, fun _ _ => by omega⟩
  | succ n ih =>
    intro s e s1 i1 e1 h
    unfold parseIPv6Loop at h
    simp only at h
    cases hg : hexGroup s 0 0 with
    | none => simp [hg] at h
    | some r =>
      obtain ⟨off, acc, rest⟩ := r
      have hcount := hexGroup_count_colon s 0 0 off acc rest hg
      simp only [hg] at h
      split at h
      · simp at h
      · split at h
        · -- trailing IPv4
          split at h
          · simp at h
          · split at h
            · simp at h
            · split at h
              · simp only [Option.some.injEq, Prod.mk.injEq] at h
                obtain ⟨rfl, rfl, rfl⟩ := h
                rename_i hcond _ _
                refine ⟨by simp, fun h => h, fun h1 h2 => absurd h1 h2, fun h1 _ => ?_⟩
                have h12 : 16 - 2 * (n + 1) = 12 := by
                  by_contra hne
                  exact hcond ⟨h1, hne⟩
                simp only [List.count_nil]
                omega
              · simp at h
        · -- a plain group
          cases hrest : rest with
          | nil =>
            simp only [hrest, Option.some.injEq, Prod.mk.injEq] at h
            obtain ⟨rfl, rfl, rfl⟩ := h
            refine ⟨by simp, fun h => h, fun h1 h2 => absurd h1 h2, fun _ h2 => ?_⟩
            simp only [List.count_nil]
            omega
          | cons c t =>
            simp only [hrest] at h
            by_cases hc : c = ':'
            · subst hc
              simp only [ne_eq, not_true_eq_false, if_false] at h
              cases ht : t with
              | nil => simp [ht] at h
              | cons c1 s2 =>
                simp only [ht] at h
                have hcs : s.count ':' = (c1 :: s2).count ':' + 1 := by
                  rw [← hcount, hrest, ht]
                  simp [List.count_cons]
                by_cases hc1 : c1 = ':'
                · subst hc1
                  simp only [if_true] at h
                  have hcs2 : s.count ':' = s2.count ':' + 2 := by
                    rw [hcs]; simp [List.count_cons]
                  by_cases he : e = none
                  · subst he
                    simp only [ne_eq, not_true_eq_false, if_false] at h
                    cases hs2 : s2 with
                    | nil =>
                      simp only [hs2, Option.some.injEq, Prod.mk.injEq] at h
                      obtain ⟨rfl, rfl, rfl⟩ := h
                      refine ⟨by simp, fun h => absurd rfl h, fun _ _ => ?_, fun h1 _ => ?_⟩
                      · rw [hcs2]; simp
                      · simp at h1
                    | cons c2 s3 =>
                      simp only [hs2] at h
                      obtain ⟨a1, a2, _, _⟩ := ih _ _ _ _ _ h
                      rw [← hs2] at a1
                      have a2n : e1 ≠ none := a2 (by simp)
                      refine ⟨by omega, fun h => absurd rfl h, fun _ _ => by omega,
                        fun h1 _ => absurd h1 a2n⟩
                  · simp [he] at h
                · simp only [hc1, if_false] at h
                  obtain ⟨a1, a2, a3, a4⟩ := ih _ _ _ _ _ h
                  refine ⟨by omega, a2, fun h1 h2 => ?_, fun h1 h2 => ?_⟩
                  · have := a3 h1 h2
                    omega
                  · have := a4 h1 h2
                    omega
            · simp [hc] at h


theorem parseIPv6Loop_open_bracket (n : Nat) (t : List Char) (e : Option Nat) :
    parseIPv6Loop (n + 1) ('[' :: t) e = none := by
  simp [parseIPv6Loop, hexGroup, hexVal_open_bracket]

theorem parseIPv6_no_zone (s : List Char) (h : parseIPv6 s = some []) :
    2 ≤ s.count ':' ∧ s.head? ≠ some '[' := by
  unfold parseIPv6 at h
  simp only at h
  cases hz : indexByte s '%' with
  | some i =>
    simp only [hz] at h
    by_cases hd : s.drop (i + 1) = []
    · simp [hd] at h
    · simp only [hd, if_false] at h
      exfalso
      split at h
      · split at h
        · exact hd (Option.some.inj h)
        · split at h
          · simp at h
          · repeat' split at h
            all_goals first | exact hd (Option.some.inj h) | simp at h
      · split at h
        · simp at h
        · repeat' split at h
          all_goals first | exact hd (Option.some.inj h) | simp at h
  | none =>
    simp only [hz] at h
    by_cases h2 : s.take 2 = [':', ':']
    · obtain ⟨t, rfl⟩ : ∃ t, s = ':' :: ':' :: t := by
        match s, h2 with
        | a :: b :: t, h2 =>
          simp only [List.take_succ_cons, List.take_zero, List.cons.injEq, and_true] at h2
          exact ⟨t, by rw [h2.1, h2.2]⟩
      simp [List.count_cons]
    · simp only [h2, if_false] at h
      cases hloop : parseIPv6Loop 8 s none with
      | none => simp [hloop] at h
      | some r =>
        obtain ⟨s1, i1, e1⟩ := r
        simp only [hloop] at h
        obtain ⟨_, _, a3, a4⟩ := parseIPv6Loop_colons 8 s none s1 i1 e1 hloop
        constructor
        · by_cases hs1 : s1 = []
          · subst hs1
            simp only [ne_eq, not_true_eq_false, if_false] at h
            by_cases he1 : e1 = none
            · by_cases hi : i1 < 16
              · simp [hi, he1] at h
              · have := a4 he1 (by omega)
                simp only [List.count_nil] at this
                omega
            · have := a3 rfl he1
              omega
          · simp [hs1] at h
        · intro hb
          cases s with
          | nil => simp at hb
          | cons x t =>
            simp only [List.head?_cons, Option.some.injEq] at hb
            subst hb
            rw [parseIPv6Loop_open_bracket] at hloop
            simp at hloop


theorem netip_ParseAddr_scan_some (s l z : List Char)
    (h : parseAddrScan s l = some z) :
    (parseIPv4Fields s = true ∧ z = []) ∨ parseIPv6 s = some z := by
  induction l with
  | nil => simp [parseAddrScan] at h
  | cons c cs ih =>
    unfold parseAddrScan at h
    split at h
    · split at h
      · rename_i h4
        exact Or.inl ⟨h4, (Option.some.inj h).symm⟩
      · simp at h
    · split at h
      · exact Or.inr h
      · split at h
        · simp at h
        · exact ih h

/-- Every string accepted by `net.ParseIP` is rejected by `net.SplitHostPort`: an IPv4
literal has no colon, an IPv6 literal has at least two and no leading bracket. -/
theorem splitHostPort_error_of_parseIP (addr : String) (h : net_ParseIP addr = true) :
    ∃ e, net_SplitHostPort addr = .error e := by
  unfold net_ParseIP at h
  cases hp : netip_ParseAddr addr.data with
  | none => simp [hp] at h
  | some z =>
    simp only [hp, decide_eq_true_eq] at h
    subst h
    unfold netip_ParseAddr at hp
    rcases netip_ParseAddr_scan_some _ _ _ hp with ⟨h4, _⟩ | h6
    · have hl := lastIndexByte_none_of_not_mem _ _ (parseIPv4Fields_no_colon _ h4)
      exact ⟨.missingPort, by simp [net_SplitHostPort, hl]⟩
    · obtain ⟨hcount, hhead⟩ := parseIPv6_no_zone _ h6
      unfold net_SplitHostPort
      simp only
      cases hl : lastIndexByte addr.data ':' with
      | none => exact ⟨.missingPort, rfl⟩
      | some i =>
        obtain ⟨hsplit, hnot⟩ := lastIndexByte_some _ _ _ hl
        have hmem : ':' ∈ addr.data.take i := by
          have hc : addr.data.count ':' =
              (addr.data.take i).count ':' + ((':' :: addr.data.drop (i + 1)).count ':') := by
            conv_lhs => rw [hsplit]
            rw [List.count_append]
          rw [List.count_cons_self, List.count_eq_zero_of_not_mem hnot] at hc
          have hpos : 0 < (addr.data.take i).count ':' := by omega
          exact List.count_pos_iff.mp hpos
        have hi : (indexByte (addr.data.take i) ':').isSome = true :=
          (indexByte_isSome_iff _ _).mpr hmem
        exact ⟨.tooManyColons, by simp [hhead, hi]⟩

/-- C4. On a fresh resolver and a non-nil context with no usable `x-client-ip` header whose
connection descriptor carries the address `addr`: if `addr` is accepted by `net.ParseIP` (a
bare IPv4 or IPv6 literal) then `net.SplitHostPort` fails on it and `PeerIP` returns `addr`
unchanged; if `net.SplitHostPort` fails on `addr` and `net.ParseIP` rejects it, `PeerIP`
returns the empty string. -/
theorem PeerIP_bare_address (U : Char → Char) (c : Ctx) (p : Peer) (addr : String)
    (hno : ∀ md v rest, metadata_FromIncomingContext U (some c) = .ok (some md) →
      md.index "x-client-ip" = v :: rest → v = "" ∨ net_ParseIP v = false)
    (hpeer : c.peer = some (some p)) (haddr : p.Addr = some addr) :
    (net_ParseIP addr = true →
      (∃ e, net_SplitHostPort addr = .error e) ∧
        ∃ b1, Builder.fresh.PeerIP U (some c) = .ok (addr, b1)) ∧
    (∀ e, net_SplitHostPort addr = .error e → net_ParseIP addr = false →
      ∃ b1, Builder.fresh.PeerIP U (some c) = .ok ("", b1)) := by
  rw [PeerIP_fresh_of_no_usable_header U c hno]
  constructor
  · intro hip
    obtain ⟨e, he⟩ := splitHostPort_error_of_parseIP addr hip
    exact ⟨⟨e, he⟩, Builder.mk (some (cacheAfter U Builder.fresh c)),
      by simp [connectionTier, hpeer, haddr, he, hip]⟩
  · intro e he hip
    exact ⟨Builder.mk (some (cacheAfter U Builder.fresh c)),
      by simp [connectionTier, hpeer, haddr, he, hip]⟩

theorem PeerIP_bare_address_witness :
    (∀ md v rest,
        metadata_FromIncomingContext id
            (some (Ctx.mk none (some (some (Peer.mk (some "203.0.113.9")))))) = .ok (some md) →
        md.index "x-client-ip" = v :: rest → v = "" ∨ net_ParseIP v = false) ∧
      (Ctx.mk none (some (some (Peer.mk (some "203.0.113.9"))))).peer =
        some (some (Peer.mk (some "203.0.113.9"))) ∧
      (Peer.mk (some "203.0.113.9")).Addr = some "203.0.113.9" ∧
      net_ParseIP "203.0.113.9" = true ∧
      ((∃ e, net_SplitHostPort "203.0.113.9" = .error e) ∧
        ∃ b1, Builder.fresh.PeerIP id
            (some (Ctx.mk none (some (some (Peer.mk (some "203.0.113.9")))))) =
          .ok ("203.0.113.9", b1)) ∧
      net_SplitHostPort "bufconn" = .error .missingPort ∧ net_ParseIP "bufconn" = false ∧
      (∃ b1, Builder.fresh.PeerIP id
          (some (Ctx.mk none (some (some (Peer.mk (some "bufconn")))))) = .ok ("", b1)) :=
  ⟨fun _ _ _ h => by simp [metadata_FromIncomingContext] at h, rfl, rfl, by rfl,
    (PeerIP_bare_address id _ _ "203.0.113.9"
      (fun _ _ _ h => by simp [metadata_FromIncomingContext] at h) rfl rfl).1 (by rfl),
    by rfl, by rfl,
    (PeerIP_bare_address id (Ctx.mk none (some (some (Peer.mk (some "bufconn"))))) _ "bufconn"
      (fun _ _ _ h => by simp [metadata_FromIncomingContext] at h) rfl rfl).2 _ (by rfl) (by rfl)⟩


/-! ## `PeerInfo` and the shape of the IP field -/

theorem cacheAfter_cached (U : Char → Char) (md : MD) (c : Ctx) :
    cacheAfter U (Builder.mk (some md)) c = md := rfl

theorem PeerInfo_some (U : Char → Char) (b : Builder) (c : Ctx) :
    b.PeerInfo U (some c) =
      .ok (PeerInfo.mk (firstValue ((cacheAfter U b c).index "x-peer-name"))
          (if firstValue ((cacheAfter U b c).Get U "x-client-ip") ≠ "" ∧
              net_ParseIP (firstValue ((cacheAfter U b c).Get U "x-client-ip")) = true
            then firstValue ((cacheAfter U b c).Get U "x-client-ip")
            else connectionTier c),
        Builder.mk (some (cacheAfter U b c))) := by
  simp only [Builder.PeerInfo, PeerName_some, PeerIP_some, cacheAfter_cached, bind, Except.bind,
    pure, Except.pure, reduceCtorEq, if_false]

theorem connectionTier_shape (c : Ctx) :
    connectionTier c = "" ∨ net_ParseIP (connectionTier c) = true ∨
      ∃ p addr port, c.peer = some (some p) ∧ p.Addr = some addr ∧
        net_SplitHostPort addr = .ok (connectionTier c, port) := by
  rcases c with ⟨raw, _ | _ | ⟨_ | addr⟩⟩
  · exact Or.inl rfl
  · exact Or.inl rfl
  · exact Or.inl rfl
  · cases hs : net_SplitHostPort addr with
    | error e =>
      by_cases hp : net_ParseIP addr = true
      · exact Or.inr (Or.inl (by simp [connectionTier, hs, hp]))
      · exact Or.inl (by simp [connectionTier, hs, hp])
    | ok r =>
      obtain ⟨host, port⟩ := r
      refine Or.inr (Or.inr ⟨_, addr, port, rfl, rfl, ?_⟩)
      simp [connectionTier, hs]

/-- C5, counterexample. With no metadata and the connection address `localhost:8080`, a fresh
resolver answers `PeerIP` (and the IP field of `PeerInfo`) with `localhost`, which is neither
empty nor accepted by `net.ParseIP`. -/
theorem PeerIP_not_always_ip_literal :
    Builder.fresh.PeerIP id (some (Ctx.mk none (some (some (Peer.mk (some "localhost:8080")))))) =
        .ok ("localhost", Builder.mk (some [])) ∧
      Builder.fresh.PeerInfo id
          (some (Ctx.mk none (some (some (Peer.mk (some "localhost:8080")))))) =
        .ok (PeerInfo.mk "" "localhost", Builder.mk (some [])) ∧
      "localhost" ≠ "" ∧ net_ParseIP "localhost" = false :=
  ⟨by rfl, by rfl, by decide, by rfl⟩

/-- C5, amended. For every resolver state, `PeerIP` on a non-nil context and `PeerInfo` on any
context return, and the IP they give is the empty string, or a string accepted by
`net.ParseIP`, or the host part that `net.SplitHostPort` yields for the address of the
connection descriptor (returned without validation). -/
theorem IP_field_shape (U : Char → Char) (b : Builder) :
    (∀ c : Ctx, ∃ ip b1, b.PeerIP U (some c) = .ok (ip, b1) ∧
      (ip = "" ∨ net_ParseIP ip = true ∨
        ∃ p addr port, c.peer = some (some p) ∧ p.Addr = some addr ∧
          net_SplitHostPort addr = .ok (ip, port))) ∧
    (∀ ctx : Context, ∃ info b1, b.PeerInfo U ctx = .ok (info, b1) ∧
      (info.IP = "" ∨ net_ParseIP info.IP = true ∨
        ∃ c p addr port, ctx = some c ∧ c.peer = some (some p) ∧ p.Addr = some addr ∧
          net_SplitHostPort addr = .ok (info.IP, port))) := by
  constructor
  · intro c
    refine ⟨_, _, PeerIP_some U b c, ?_⟩
    split
    · rename_i h
      exact Or.inr (Or.inl h.2)
    · exact connectionTier_shape c
  · intro ctx
    cases ctx with
    | none => exact ⟨PeerInfo.mk "" "", b, rfl, Or.inl rfl⟩
    | some c =>
      refine ⟨_, _, PeerInfo_some U b c, ?_⟩
      simp only
      split
      · rename_i h
        exact Or.inr (Or.inl h.2)
      · rcases connectionTier_shape c with h | h | ⟨p, addr, port, h1, h2, h3⟩
        · exact Or.inl h
        · exact Or.inr (Or.inl h)
        · exact Or.inr (Or.inr ⟨c, p, addr, port, rfl, h1, h2, h3⟩)

/-- C6. `PeerInfo` on the nil context returns the pair of empty strings and leaves the
resolver, in particular its cached map, exactly as it was; on a fresh resolver the map is
still unset afterwards. -/
theorem PeerInfo_nil_context (U : Char → Char) (b : Builder) :
    b.PeerInfo U none = .ok (PeerInfo.mk "" "", b) ∧
      Builder.fresh.PeerInfo U none = .ok (PeerInfo.mk "" "", Builder.mk none) :=
  ⟨rfl, rfl⟩

/-- C7, the code at the failing input. On a fresh resolver `PeerName` and `PeerIP` with the
nil context panic inside `metadata.FromIncomingContext`, before the guard `ctx == nil` of
`grpcHeaderVal` is reached; with a map already cached, `PeerName` returns the empty string
and `PeerIP` panics inside `peer.FromContext`. -/
theorem PeerName_PeerIP_nil_context (U : Char → Char) (md : MD) :
    Builder.fresh.PeerName U none = .error .nilDereference ∧
      Builder.fresh.PeerIP U none = .error .nilDereference ∧
      (Builder.mk (some md)).PeerName U none = .ok ("", Builder.mk (some md)) ∧
      (Builder.mk (some md)).PeerIP U none = .error .nilDereference :=
  ⟨rfl, rfl, rfl, rfl⟩

/-- C8. For every resolver state and every context, nil or not, `PeerInfo` returns a pair of
strings and never panics. -/
theorem PeerInfo_never_panics (U : Char → Char) (b : Builder) (ctx : Context) :
    ∃ info b1, b.PeerInfo U ctx = .ok (info, b1) := by
  cases ctx with
  | none => exact ⟨PeerInfo.mk "" "", b, rfl⟩
  | some c => exact ⟨_, _, PeerInfo_some U b c⟩


/-! ## `PeerName` and the cache -/

/-- C9. On a fresh resolver and a non-nil context, `PeerName` returns the first value of the
`x-peer-name` list of the incoming metadata unchanged when that list is non-empty (later
values are dropped), and the empty string when the key is absent, when its list is empty, or
when the context has no metadata. -/
theorem PeerName_first_value (U : Char → Char) (c : Ctx) :
    (∀ md v rest, metadata_FromIncomingContext U (some c) = .ok (some md) →
      md.index "x-peer-name" = v :: rest →
      Builder.fresh.PeerName U (some c) = .ok (v, Builder.mk (some md))) ∧
    (∀ md, metadata_FromIncomingContext U (some c) = .ok (some md) →
      (md.lookup "x-peer-name" = none ∨ md.lookup "x-peer-name" = some []) →
      Builder.fresh.PeerName U (some c) = .ok ("", Builder.mk (some md))) ∧
    (metadata_FromIncomingContext U (some c) = .ok none →
      Builder.fresh.PeerName U (some c) = .ok ("", Builder.mk (some []))) := by
  refine ⟨?_, ?_, ?_⟩
  · intro md v rest hmd hval
    rw [PeerName_some, cacheAfter_fresh_of_incoming U c md hmd, hval]
    rfl
  · intro md hmd hval
    rw [PeerName_some, cacheAfter_fresh_of_incoming U c md hmd]
    rcases hval with h | h <;> simp [MD.index, h, firstValue]
  · intro hmd
    rw [PeerName_some, cacheAfter_fresh_of_no_incoming U c hmd]
    rfl

theorem PeerName_first_value_witness :
    Builder.fresh.PeerName id
        (some (Ctx.mk (some [("x-peer-name", ["alice", "bob"])]) none)) =
        .ok ("alice", Builder.mk (some [("x-peer-name", ["alice", "bob"])])) ∧
      Builder.fresh.PeerName id (some (Ctx.mk (some [("x-peer-name", [])]) none)) =
        .ok ("", Builder.mk (some [("x-peer-name", [])])) ∧
      Builder.fresh.PeerName id (some (Ctx.mk (some [("other", ["v"])]) none)) =
        .ok ("", Builder.mk (some [("other", ["v"])])) ∧
      Builder.fresh.PeerName id (some (Ctx.mk none none)) = .ok ("", Builder.mk (some [])) :=
  ⟨(PeerName_first_value id (Ctx.mk (some [("x-peer-name", ["alice", "bob"])]) none)).1
      _ "alice" ["bob"] (by rfl) (by rfl),
    (PeerName_first_value id (Ctx.mk (some [("x-peer-name", [])]) none)).2.1
      _ (by rfl) (Or.inr (by rfl)),
    (PeerName_first_value id (Ctx.mk (some [("other", ["v"])]) none)).2.1
      _ (by rfl) (Or.inl (by rfl)),
    (PeerName_first_value id (Ctx.mk none none)).2.2 (by rfl)⟩

/-- C10. Cache-once invariant. The first header access of a fresh resolver on a non-nil
context stores the context's incoming metadata, or the empty map when the context has none.
Once a map is stored, `grpcHeaderVal` (any context, any key), `PeerName` (any context),
`PeerIP` (any non-nil context; any context whenever it returns) and `PeerInfo` (any context)
return with the stored map unchanged, and the header value read does not depend on the
metadata of the context passed: the stored map is never derived again. -/
theorem cache_once (U : Char → Char) :
    (∀ c key md, metadata_FromIncomingContext U (some c) = .ok (some md) →
      ∃ v, Builder.fresh.grpcHeaderVal U (some c) key = .ok (v, Builder.mk (some md))) ∧
    (∀ c key, metadata_FromIncomingContext U (some c) = .ok none →
      ∃ v, Builder.fresh.grpcHeaderVal U (some c) key = .ok (v, Builder.mk (some []))) ∧
    (∀ md ctx key, ∃ v,
      (Builder.mk (some md)).grpcHeaderVal U ctx key = .ok (v, Builder.mk (some md))) ∧
    (∀ md ctx, ∃ v, (Builder.mk (some md)).PeerName U ctx = .ok (v, Builder.mk (some md))) ∧
    (∀ md c, ∃ v, (Builder.mk (some md)).PeerIP U (some c) = .ok (v, Builder.mk (some md))) ∧
    (∀ md ctx v b1, (Builder.mk (some md)).PeerIP U ctx = .ok (v, b1) →
      b1 = Builder.mk (some md)) ∧
    (∀ md ctx, ∃ info,
      (Builder.mk (some md)).PeerInfo U ctx = .ok (info, Builder.mk (some md))) ∧
    (∀ md c1 c2 key, (Builder.mk (some md)).grpcHeaderVal U (some c1) key =
      (Builder.mk (some md)).grpcHeaderVal U (some c2) key) := by
  refine ⟨?_, ?_, ?_, ?_, ?_, ?_, ?_, ?_⟩
  · intro c key md hmd
    exact ⟨_, by rw [grpcHeaderVal_some, cacheAfter_fresh_of_incoming U c md hmd]⟩
  · intro c key hmd
    exact ⟨_, by rw [grpcHeaderVal_some, cacheAfter_fresh_of_no_incoming U c hmd]⟩
  · intro md ctx key
    exact ⟨_, grpcHeaderVal_cached U md ctx key⟩
  · intro md ctx
    exact ⟨_, grpcHeaderVal_cached U md ctx "x-peer-name"⟩
  · intro md c
    exact ⟨_, PeerIP_some U (Builder.mk (some md)) c⟩
  · intro md ctx v b1 h
    cases ctx with
    | none =>
      have : (Builder.mk (some md)).PeerIP U none = .error .nilDereference := rfl
      rw [this] at h
      simp at h
    | some c =>
      rw [PeerIP_some] at h
      simp only [Except.ok.injEq, Prod.mk.injEq] at h
      exact h.2.symm
  · intro md ctx
    cases ctx with
    | none => exact ⟨_, rfl⟩
    | some c => exact ⟨_, PeerInfo_some U (Builder.mk (some md)) c⟩
  · intro md c1 c2 key
    rw [grpcHeaderVal_some, grpcHeaderVal_some]
    rfl

theorem cache_once_witness :
    Builder.fresh.grpcHeaderVal id (some (Ctx.mk (some [("X-Peer-Name", ["alice"])]) none))
        "x-peer-name" = .ok ("alice", Builder.mk (some [("x-peer-name", ["alice"])])) ∧
      (∃ v, (Builder.mk (some [("x-peer-name", ["alice"])])).grpcHeaderVal id
          (some (Ctx.mk (some [("x-peer-name", ["carol"])]) none)) "x-peer-name" =
        .ok (v, Builder.mk (some [("x-peer-name", ["alice"])]))) ∧
      (Builder.mk (some [("x-peer-name", ["alice"])])).grpcHeaderVal id
          (some (Ctx.mk (some [("x-peer-name", ["carol"])]) none)) "x-peer-name" =
        .ok ("alice", Builder.mk (some [("x-peer-name", ["alice"])])) :=
  ⟨by rfl, (cache_once id).2.2.1 _ _ _, by rfl⟩


/-! ## Order of the queries, repetition, composition -/

theorem nameThenIP_some (U : Char → Char) (b : Builder) (c : Ctx) :
    nameThenIP U b (some c) =
      .ok (firstValue ((cacheAfter U b c).index "x-peer-name"),
        (if firstValue ((cacheAfter U b c).Get U "x-client-ip") ≠ "" ∧
            net_ParseIP (firstValue ((cacheAfter U b c).Get U "x-client-ip")) = true
          then firstValue ((cacheAfter U b c).Get U "x-client-ip")
          else connectionTier c),
        Builder.mk (some (cacheAfter U b c))) := by
  simp only [nameThenIP, PeerName_some, PeerIP_some, cacheAfter_cached, bind, Except.bind,
    pure, Except.pure]

theorem ipThenName_some (U : Char → Char) (b : Builder) (c : Ctx) :
    ipThenName U b (some c) =
      .ok (firstValue ((cacheAfter U b c).index "x-peer-name"),
        (if firstValue ((cacheAfter U b c).Get U "x-client-ip") ≠ "" ∧
            net_ParseIP (firstValue ((cacheAfter U b c).Get U "x-client-ip")) = true
          then firstValue ((cacheAfter U b c).Get U "x-client-ip")
          else connectionTier c),
        Builder.mk (some (cacheAfter U b c))) := by
  simp only [ipThenName, PeerName_some, PeerIP_some, cacheAfter_cached, bind, Except.bind,
    pure, Except.pure]

/-- C12. Idempotence. For every resolver state and every context: whenever `PeerInfo`,
`PeerName` or `PeerIP` returns, calling it again on the resulting resolver with the same
context returns the same value and leaves the resolver as the first call left it. `PeerInfo`
returns on every context, `PeerName` and `PeerIP` on every non-nil context. -/
theorem queries_idempotent (U : Char → Char) (b : Builder) (ctx : Context) :
    (∃ info b1, b.PeerInfo U ctx = .ok (info, b1) ∧ b1.PeerInfo U ctx = .ok (info, b1)) ∧
    (∀ name b1, b.PeerName U ctx = .ok (name, b1) → b1.PeerName U ctx = .ok (name, b1)) ∧
    (∀ ip b1, b.PeerIP U ctx = .ok (ip, b1) → b1.PeerIP U ctx = .ok (ip, b1)) ∧
    (∀ c, ctx = some c →
      (∃ name b1, b.PeerName U ctx = .ok (name, b1)) ∧
      (∃ ip b1, b.PeerIP U ctx = .ok (ip, b1))) := by
  cases ctx with
  | none =>
    refine ⟨⟨PeerInfo.mk "" "", b, rfl, rfl⟩, ?_, ?_, fun c h => by simp at h⟩
    · intro name b1 h
      rcases b with ⟨_ | md⟩
      · exact absurd h (by simp [Builder.PeerName, Builder.grpcHeaderVal,
          metadata_FromIncomingContext, bind, Except.bind])
      · have h2 := grpcHeaderVal_cached U md none "x-peer-name"
        simp only [Builder.PeerName] at h
        rw [h2] at h
        simp only [true_or, if_true, Except.ok.injEq, Prod.mk.injEq] at h
        rw [← h.1, ← h.2]
        exact h2
    · intro ip b1 h
      rcases b with ⟨_ | md⟩
      · exact absurd h (by simp [Builder.PeerIP, Builder.grpcHeaderVal,
          metadata_FromIncomingContext, bind, Except.bind])
      · have h2 : (Builder.mk (some md)).PeerIP U none = .error .nilDereference := rfl
        rw [h2] at h
        simp at h
  | some c =>
    refine ⟨⟨_, _, PeerInfo_some U b c, ?_⟩, ?_, ?_, fun _ _ =>
      ⟨⟨_, _, PeerName_some U b c⟩, ⟨_, _, PeerIP_some U b c⟩⟩⟩
    · rw [PeerInfo_some, cacheAfter_cached]
    · intro name b1 h
      rw [PeerName_some] at h
      simp only [Except.ok.injEq, Prod.mk.injEq] at h
      rw [← h.1, ← h.2, PeerName_some, cacheAfter_cached]
    · intro ip b1 h
      rw [PeerIP_some] at h
      simp only [Except.ok.injEq, Prod.mk.injEq] at h
      rw [← h.1, ← h.2, PeerIP_some, cacheAfter_cached]

/-- C13. For every resolver state and every non-nil context, `PeerName` returns, `PeerIP`
on the resolver it leaves returns, and `PeerInfo` on the original resolver returns exactly
the pair of these two values and the resolver left by the second call. -/
theorem PeerInfo_is_name_then_ip (U : Char → Char) (b : Builder) (c : Ctx) :
    ∃ name b1 ip b2, b.PeerName U (some c) = .ok (name, b1) ∧
      b1.PeerIP U (some c) = .ok (ip, b2) ∧
      b.PeerInfo U (some c) = .ok (PeerInfo.mk name ip, b2) := by
  refine ⟨_, _, _, _, PeerName_some U b c, PeerIP_some U _ c, ?_⟩
  rw [PeerInfo_some, cacheAfter_cached]


/-! ## Missing descriptor, key casing, first value only -/

/-- C14. On a fresh resolver and a non-nil context with no usable `x-client-ip` header whose
connection descriptor is absent (not stored, or a nil pointer) or has no address, `PeerIP`
returns the empty string; with no metadata and no descriptor at all, `PeerIP` and `PeerName`
both return the empty string. -/
theorem PeerIP_without_descriptor (U : Char → Char) (c : Ctx)
    (hno : ∀ md v rest, metadata_FromIncomingContext U (some c) = .ok (some md) →
      md.index "x-client-ip" = v :: rest → v = "" ∨ net_ParseIP v = false)
    (hpeer : c.peer = none ∨ c.peer = some none ∨
      ∃ p, c.peer = some (some p) ∧ p.Addr = none) :
    (∃ b1, Builder.fresh.PeerIP U (some c) = .ok ("", b1)) ∧
      Builder.fresh.PeerIP U (some (Ctx.mk none none)) = .ok ("", Builder.mk (some [])) ∧
      Builder.fresh.PeerName U (some (Ctx.mk none none)) = .ok ("", Builder.mk (some [])) := by
  refine ⟨⟨Builder.mk (some (cacheAfter U Builder.fresh c)), ?_⟩, rfl, rfl⟩
  rw [PeerIP_fresh_of_no_usable_header U c hno]
  rcases hpeer with h | h | ⟨p, h, ha⟩
  · simp [connectionTier, h]
  · simp [connectionTier, h]
  · simp [connectionTier, h, ha]

theorem PeerIP_without_descriptor_witness :
    (∃ b1, Builder.fresh.PeerIP id
        (some (Ctx.mk (some [("x-client-ip", ["not-an-ip"])]) (some (some (Peer.mk none))))) =
        .ok ("", b1)) ∧
      (∃ b1, Builder.fresh.PeerIP id (some (Ctx.mk (some []) (some none))) = .ok ("", b1)) ∧
      (∃ b1, Builder.fresh.PeerIP id (some (Ctx.mk none none)) = .ok ("", b1)) :=
  ⟨(PeerIP_without_descriptor id
      (Ctx.mk (some [("x-client-ip", ["not-an-ip"])]) (some (some (Peer.mk none))))
      (fun md v rest h hv => by
        simp only [metadata_FromIncomingContext, List.foldl, Except.ok.injEq,
          Option.some.injEq] at h
        subst h
        have hv2 : v = "not-an-ip" := by
          have : MD.index (MD.set [] (strings_ToLower id "x-client-ip") ["not-an-ip"])
              "x-client-ip" = ["not-an-ip"] := by rfl
          rw [this] at hv
          exact (List.cons.inj hv).1.symm
        subst hv2
        exact Or.inr (by rfl))
      (Or.inr (Or.inr ⟨Peer.mk none, rfl, rfl⟩))).1,
    (PeerIP_without_descriptor id (Ctx.mk (some []) (some none))
      (fun md v rest h hv => by
        simp only [metadata_FromIncomingContext, List.foldl, Except.ok.injEq,
          Option.some.injEq] at h
        subst h
        simp [MD.index] at hv)
      (Or.inr (Or.inl rfl))).1,
    (PeerIP_without_descriptor id (Ctx.mk none none)
      (fun _ _ _ h => by simp [metadata_FromIncomingContext] at h) (Or.inl rfl)).1⟩

/-- C18. The header tier reads only the first `x-client-ip` value. On a fresh resolver and a
non-nil context whose `x-client-ip` list starts with a value that is empty or rejected by
`net.ParseIP`, `PeerIP` returns the connection-tier result, the same string as on the context
with the header removed, whatever the later values of the list are. -/
theorem PeerIP_reads_first_value_only (U : Char → Char) (c : Ctx) (md : MD) (v : String)
    (rest : List String)
    (hmd : metadata_FromIncomingContext U (some c) = .ok (some md))
    (hval : md.index "x-client-ip" = v :: rest)
    (hbad : v = "" ∨ net_ParseIP v = false) :
    Builder.fresh.PeerIP U (some c) = .ok (connectionTier c, Builder.mk (some md)) ∧
      ∃ b2, Builder.fresh.PeerIP U (some (c.withoutHeader U "x-client-ip")) =
        .ok (connectionTier c, b2) := by
  constructor
  · rw [PeerIP_some, cacheAfter_fresh_of_incoming U c md hmd]
    rcases hbad with h | h <;> simp [MD.Get, toLower_client_ip, hval, firstValue, h]
  · refine ⟨Builder.mk (some (cacheAfter U Builder.fresh (c.withoutHeader U "x-client-ip"))),
      ?_⟩
    rw [PeerIP_some]
    simp [MD.Get, toLower_client_ip, withoutHeader_index, firstValue,
      connectionTier_withoutHeader]

theorem PeerIP_reads_first_value_only_witness :
    net_ParseIP "203.0.113.5" = true ∧
      Builder.fresh.PeerIP id
        (some (Ctx.mk (some [("x-client-ip", ["bogus", "203.0.113.5"])])
          (some (some (Peer.mk (some "198.51.100.7:4433")))))) =
        .ok ("198.51.100.7", Builder.mk (some [("x-client-ip", ["bogus", "203.0.113.5"])])) ∧
      Builder.fresh.PeerIP id
        (some (Ctx.mk (some [("x-client-ip", ["", "203.0.113.5"])]) none)) =
        .ok ("", Builder.mk (some [("x-client-ip", ["", "203.0.113.5"])])) :=
  ⟨by rfl,
    (PeerIP_reads_first_value_only id
      (Ctx.mk (some [("x-client-ip", ["bogus", "203.0.113.5"])])
        (some (some (Peer.mk (some "198.51.100.7:4433")))))
      [("x-client-ip", ["bogus", "203.0.113.5"])] "bogus" ["203.0.113.5"]
      (by rfl) (by rfl) (Or.inr (by rfl))).1,
    (PeerIP_reads_first_value_only id
      (Ctx.mk (some [("x-client-ip", ["", "203.0.113.5"])]) none)
      [("x-client-ip", ["", "203.0.113.5"])] "" ["203.0.113.5"]
      (by rfl) (by rfl) (Or.inl rfl)).1⟩


theorem lookup_normalise_skip (U : Char → Char) (key : String) (raw acc : MD)
    (hraw : ∀ e ∈ raw, strings_ToLower U e.1 ≠ key) :
    (raw.foldl (fun out e => out.set (strings_ToLower U e.1) e.2) acc).lookup key =
      acc.lookup key := by
  induction raw generalizing acc with
  | nil => rfl
  | cons e raw ih =>
    simp only [List.foldl]
    rw [ih _ (fun x hx => hraw x (List.mem_cons_of_mem _ hx)), lookup_set]
    have := hraw e (List.mem_cons_self _ _)
    simp [Ne.symm this]

theorem normalise_recase (U : Char → Char) (pre post acc : MD) (k key : String)
    (vs : List String) (hk : strings_ToLower U k = key) (hkey : strings_ToLower U key = key) :
    (pre ++ (k, vs) :: post).foldl (fun out e => out.set (strings_ToLower U e.1) e.2) acc =
      (pre ++ (key, vs) :: post).foldl (fun out e => out.set (strings_ToLower U e.1) e.2) acc := by
  simp only [List.foldl_append, List.foldl_cons, hk, hkey]

theorem normalise_index_single (U : Char → Char) (pre post : MD) (key : String)
    (vs : List String) (hkey : strings_ToLower U key = key)
    (hother : ∀ e ∈ pre ++ post, strings_ToLower U e.1 ≠ key) :
    MD.index ((pre ++ (key, vs) :: post).foldl
      (fun out e => out.set (strings_ToLower U e.1) e.2) []) key = vs := by
  have hpost : ∀ e ∈ post, strings_ToLower U e.1 ≠ key :=
    fun e he => hother e (List.mem_append_right _ he)
  simp only [MD.index, List.foldl_append, List.foldl_cons, hkey]
  rw [lookup_normalise_skip U key post _ hpost, lookup_set]
  simp

/-- Every ASCII re-casing of an ASCII lower-case key is mapped back to it by
`strings.ToLower`. -/
theorem toLower_of_ascii_recasing (U : Char → Char) (k key : String)
    (hascii : key.data.all (fun c => decide (c.toNat < 128)) = true)
    (h : k.data.map asciiLower = key.data) : strings_ToLower U k = key := by
  have hall : k.data.all (fun c => decide (c.toNat < 128)) = true := by
    rw [← h] at hascii
    rw [List.all_eq_true] at hascii ⊢
    intro c hc
    have hl := hascii (asciiLower c) (List.mem_map_of_mem _ hc)
    simp only [decide_eq_true_eq] at hl ⊢
    unfold asciiLower at hl
    split at hl
    · omega
    · exact hl
  unfold strings_ToLower
  rw [if_pos hall, h]


/-- C15. Header lookup is case-insensitive. Take a non-nil context whose stored metadata
holds the peer-name or client-ip header under a key `k` that is a re-casing of the lower-case
key (an ASCII re-casing, or any key `strings.ToLower` sends to it), and under no other key
that lower-cases to it. On a fresh resolver `PeerName` and `PeerIP` then give the very results
(value and cached map) they give when the entry is stored under the lower-case key, and the
header read is the first value stored under `k`. -/
theorem header_lookup_case_insensitive (U : Char → Char) (pre post : MD) (k key : String)
    (vs : List String) (peer : Option (Option Peer))
    (hkey : key = "x-peer-name" ∨ key = "x-client-ip")
    (hk : k.data.map asciiLower = key.data ∨ strings_ToLower U k = key)
    (hother : ∀ e ∈ pre ++ post, strings_ToLower U e.1 ≠ key) :
    Builder.fresh.PeerName U (some (Ctx.mk (some (pre ++ (k, vs) :: post)) peer)) =
        Builder.fresh.PeerName U (some (Ctx.mk (some (pre ++ (key, vs) :: post)) peer)) ∧
      Builder.fresh.PeerIP U (some (Ctx.mk (some (pre ++ (k, vs) :: post)) peer)) =
        Builder.fresh.PeerIP U (some (Ctx.mk (some (pre ++ (key, vs) :: post)) peer)) ∧
      ∃ b1, Builder.fresh.grpcHeaderVal U (some (Ctx.mk (some (pre ++ (k, vs) :: post)) peer))
        key = .ok (firstValue vs, b1) := by
  have hkeylow : strings_ToLower U key = key := by
    rcases hkey with h | h <;> subst h <;> rfl
  have hascii : key.data.all (fun c => decide (c.toNat < 128)) = true := by
    rcases hkey with h | h <;> subst h <;> rfl
  have hne : key ≠ "" := by
    rcases hkey with h | h <;> subst h <;> decide
  have hk2 : strings_ToLower U k = key := by
    rcases hk with h | h
    · exact toLower_of_ascii_recasing U k key hascii h
    · exact h
  have hcache : cacheAfter U Builder.fresh (Ctx.mk (some (pre ++ (k, vs) :: post)) peer) =
      cacheAfter U Builder.fresh (Ctx.mk (some (pre ++ (key, vs) :: post)) peer) := by
    simp only [cacheAfter, Builder.fresh]
    exact normalise_recase U pre post [] k key vs hk2 hkeylow
  refine ⟨?_, ?_, ?_⟩
  · rw [PeerName_some, PeerName_some, hcache]
  · rw [PeerIP_some, PeerIP_some, hcache]
    rfl
  · refine ⟨Builder.mk (some (cacheAfter U Builder.fresh
      (Ctx.mk (some (pre ++ (key, vs) :: post)) peer))), ?_⟩
    rw [grpcHeaderVal_some, hcache, if_neg hne]
    simp only [MD.Get, hkeylow, cacheAfter, Builder.fresh]
    rw [normalise_index_single U pre post key vs hkeylow hother]

theorem header_lookup_case_insensitive_witness :
    Builder.fresh.PeerName id
        (some (Ctx.mk (some ([("a", ["1"])] ++ ("X-Peer-Name", ["alice"]) :: [("b", ["2"])]))
          none)) =
      Builder.fresh.PeerName id
        (some (Ctx.mk (some ([("a", ["1"])] ++ ("x-peer-name", ["alice"]) :: [("b", ["2"])]))
          none)) ∧
    Builder.fresh.PeerName id
        (some (Ctx.mk (some ([("a", ["1"])] ++ ("X-Peer-Name", ["alice"]) :: [("b", ["2"])]))
          none)) =
      .ok ("alice",
        Builder.mk (some [("b", ["2"]), ("x-peer-name", ["alice"]), ("a", ["1"])])) ∧
    Builder.fresh.PeerIP id
        (some (Ctx.mk (some ([] ++ ("X-Client-IP", ["203.0.113.5"]) :: [])) none)) =
      Builder.fresh.PeerIP id
        (some (Ctx.mk (some ([] ++ ("x-client-ip", ["203.0.113.5"]) :: [])) none)) ∧
    Builder.fresh.PeerIP id
        (some (Ctx.mk (some ([] ++ ("X-Client-IP", ["203.0.113.5"]) :: [])) none)) =
      .ok ("203.0.113.5", Builder.mk (some [("x-client-ip", ["203.0.113.5"])])) :=
  ⟨(header_lookup_case_insensitive id [("a", ["1"])] [("b", ["2"])] "X-Peer-Name"
      "x-peer-name" ["alice"] none (Or.inl rfl) (Or.inl (by rfl))
      (fun e he => by
        simp only [List.cons_append, List.nil_append, List.mem_cons, List.mem_nil_iff,
          or_false] at he
        rcases he with h | h <;> subst h <;> decide)).1,
    by rfl,
    (header_lookup_case_insensitive id [] [] "X-Client-IP" "x-client-ip" ["203.0.113.5"] none
      (Or.inr rfl) (Or.inl (by rfl)) (fun e he => by simp at he)).2.1,
    by rfl⟩


/-! ## Sequences of calls -/

theorem runOne_cons (U : Char → Char) (q : Query) (ctx : Context)
    (rest : List (Query × Context)) (b : Builder) :
    runOne U ((q, ctx) :: rest) b =
      (b.ask U q ctx).bind (fun r =>
        (runOne U rest r.2).bind (fun t => .ok (r.1 :: t.1, t.2))) := by
  simp only [runOne]
  rfl

/-! ## Reusing a resolver on another context -/

theorem ask_some_state (U : Char → Char) (b : Builder) (q : Query) (c : Ctx) (ans : Answer)
    (b1 : Builder) (h : b.ask U q (some c) = .ok (ans, b1)) :
    b1 = Builder.mk (some (cacheAfter U b c)) := by
  cases q with
  | peerName =>
    simp only [Builder.ask, PeerName_some, bind, Except.bind, pure, Except.pure,
      Except.ok.injEq, Prod.mk.injEq] at h
    exact h.2.symm
  | peerIP =>
    simp only [Builder.ask, PeerIP_some, bind, Except.bind, pure, Except.pure,
      Except.ok.injEq, Prod.mk.injEq] at h
    exact h.2.symm
  | peerInfo =>
    simp only [Builder.ask, PeerInfo_some, bind, Except.bind, pure, Except.pure,
      Except.ok.injEq, Prod.mk.injEq] at h
    exact h.2.symm

/-- C17. Stale cache on reuse. Let a fresh resolver answer any first query on a non-nil
context `c1`, and then be asked about another non-nil context `c2`. `PeerName(c2)` returns
the `x-peer-name` value of `c1`; `PeerIP(c2)` returns the `x-client-ip` value of `c1` when
that is non-empty and accepted by `net.ParseIP`, and otherwise the connection-tier result of
`c2`. There are contexts for which `PeerInfo(c2)` on the reused resolver differs from
`PeerInfo(c2)` on a fresh one. -/
theorem stale_cache_on_reuse (U : Char → Char) :
    (∀ (c1 c2 : Ctx) (q : Query) (ans : Answer) (b1 : Builder),
      Builder.fresh.ask U q (some c1) = .ok (ans, b1) →
      ∃ name1 v1 bn bv,
        Builder.fresh.PeerName U (some c1) = .ok (name1, bn) ∧
        Builder.fresh.grpcHeaderVal U (some c1) "x-client-ip" = .ok (v1, bv) ∧
        b1.PeerName U (some c2) = .ok (name1, b1) ∧
        b1.PeerIP U (some c2) =
          .ok (if v1 ≠ "" ∧ net_ParseIP v1 = true then v1 else connectionTier c2, b1)) ∧
    (∃ (c1 c2 : Ctx) (info1 stale clean : PeerInfo) (b1 b2 b3 : Builder),
      Builder.fresh.PeerInfo U (some c1) = .ok (info1, b1) ∧
      b1.PeerInfo U (some c2) = .ok (stale, b2) ∧
      Builder.fresh.PeerInfo U (some c2) = .ok (clean, b3) ∧
      stale ≠ clean) := by
  constructor
  · intro c1 c2 q ans b1 h
    have hb := ask_some_state U _ q c1 ans b1 h
    subst hb
    refine ⟨_, _, _, _, PeerName_some U _ c1, grpcHeaderVal_some U _ c1 "x-client-ip", ?_, ?_⟩
    · rw [PeerName_some, cacheAfter_cached]
    · rw [PeerIP_some, cacheAfter_cached]
      rfl
  · exact ⟨Ctx.mk (some [("x-peer-name", ["alice"])]) none,
      Ctx.mk (some [("x-peer-name", ["bob"])]) none,
      PeerInfo.mk "alice" "", PeerInfo.mk "alice" "", PeerInfo.mk "bob" "",
      Builder.mk (some [("x-peer-name", ["alice"])]),
      Builder.mk (some [("x-peer-name", ["alice"])]),
      Builder.mk (some [("x-peer-name", ["bob"])]),
      by rfl, by rfl, by rfl, by decide⟩

theorem stale_cache_on_reuse_witness :
    Builder.fresh.ask id Query.peerInfo
        (some (Ctx.mk (some [("x-peer-name", ["alice"]), ("x-client-ip", ["203.0.113.5"])])
          none)) =
      .ok (Answer.info (PeerInfo.mk "alice" "203.0.113.5"),
        Builder.mk (some [("x-client-ip", ["203.0.113.5"]), ("x-peer-name", ["alice"])])) ∧
    (∃ name1 v1 bn bv,
      Builder.fresh.PeerName id
          (some (Ctx.mk (some [("x-peer-name", ["alice"]), ("x-client-ip", ["203.0.113.5"])])
            none)) = .ok (name1, bn) ∧
      Builder.fresh.grpcHeaderVal id
          (some (Ctx.mk (some [("x-peer-name", ["alice"]), ("x-client-ip", ["203.0.113.5"])])
            none)) "x-client-ip" = .ok (v1, bv) ∧
      (Builder.mk (some [("x-client-ip", ["203.0.113.5"]), ("x-peer-name", ["alice"])])).PeerName
          id (some (Ctx.mk (some [("x-peer-name", ["bob"])])
            (some (some (Peer.mk (some "198.51.100.7:4433")))))) =
        .ok (name1,
          Builder.mk (some [("x-client-ip", ["203.0.113.5"]), ("x-peer-name", ["alice"])])) ∧
      (Builder.mk (some [("x-client-ip", ["203.0.113.5"]), ("x-peer-name", ["alice"])])).PeerIP
          id (some (Ctx.mk (some [("x-peer-name", ["bob"])])
            (some (some (Peer.mk (some "198.51.100.7:4433")))))) =
        .ok (if v1 ≠ "" ∧ net_ParseIP v1 = true then v1
            else connectionTier (Ctx.mk (some [("x-peer-name", ["bob"])])
              (some (some (Peer.mk (some "198.51.100.7:4433"))))),
          Builder.mk (some [("x-client-ip", ["203.0.113.5"]), ("x-peer-name", ["alice"])]))) ∧
    (Builder.mk (some [("x-client-ip", ["203.0.113.5"]), ("x-peer-name", ["alice"])])).PeerInfo
        id (some (Ctx.mk (some [("x-peer-name", ["bob"])])
          (some (some (Peer.mk (some "198.51.100.7:4433")))))) =
      .ok (PeerInfo.mk "alice" "203.0.113.5",
        Builder.mk (some [("x-client-ip", ["203.0.113.5"]), ("x-peer-name", ["alice"])])) ∧
    Builder.fresh.PeerInfo id
        (some (Ctx.mk (some [("x-peer-name", ["bob"])])
          (some (some (Peer.mk (some "198.51.100.7:4433")))))) =
      .ok (PeerInfo.mk "bob" "198.51.100.7", Builder.mk (some [("x-peer-name", ["bob"])])) :=
  ⟨by rfl,
    (stale_cache_on_reuse id).1
      (Ctx.mk (some [("x-peer-name", ["alice"]), ("x-client-ip", ["203.0.113.5"])]) none)
      (Ctx.mk (some [("x-peer-name", ["bob"])])
        (some (some (Peer.mk (some "198.51.100.7:4433")))))
      Query.peerInfo _ _ (by rfl),
    by rfl, by rfl⟩


/-! ## The iteration order of the stored map -/

theorem lookup_normalise_single (U : Char → Char) (pre post : MD) (k key : String)
    (vs : List String) (hk : strings_ToLower U k = key)
    (hpost : ∀ e ∈ post, strings_ToLower U e.1 ≠ key) :
    ((pre ++ (k, vs) :: post).foldl
      (fun (out : MD) e => out.set (strings_ToLower U e.1) e.2) []).lookup key = some vs := by
  simp only [List.foldl_append, List.foldl_cons, hk]
  rw [lookup_normalise_skip U key post _ hpost, lookup_set]
  simp

theorem lookup_normalise_of_mem (U : Char → Char) (raw : MD) (k key : String)
    (vs : List String)
    (hnodup : (raw.map (fun e => strings_ToLower U e.1)).Nodup)
    (hmem : (k, vs) ∈ raw) (hk : strings_ToLower U k = key) :
    (raw.foldl (fun (out : MD) e => out.set (strings_ToLower U e.1) e.2) []).lookup key = some vs := by
  obtain ⟨pre, post, rfl⟩ := List.append_of_mem hmem
  apply lookup_normalise_single U pre post k key vs hk
  intro e he heq
  rw [List.map_append, List.map_cons] at hnodup
  have h1 := (List.nodup_middle.mp hnodup)
  rw [List.nodup_cons] at h1
  apply h1.1
  simp only [hk]
  rw [← heq]
  exact List.mem_append_right _ (List.mem_map_of_mem _ he)

theorem index_normalise_perm (U : Char → Char) (raw1 raw2 : MD) (hperm : raw1.Perm raw2)
    (hnodup : (raw1.map (fun e => strings_ToLower U e.1)).Nodup) (key : String) :
    MD.index (raw1.foldl (fun (out : MD) e => out.set (strings_ToLower U e.1) e.2) []) key =
      MD.index (raw2.foldl (fun (out : MD) e => out.set (strings_ToLower U e.1) e.2) []) key := by
  have hnodup2 : (raw2.map (fun e => strings_ToLower U e.1)).Nodup :=
    (hperm.map _).nodup_iff.mp hnodup
  by_cases hex : ∃ e ∈ raw1, strings_ToLower U e.1 = key
  · obtain ⟨⟨k, vs⟩, hmem, hk⟩ := hex
    simp only [MD.index]
    rw [lookup_normalise_of_mem U raw1 k key vs hnodup hmem hk,
      lookup_normalise_of_mem U raw2 k key vs hnodup2 (hperm.mem_iff.mp hmem) hk]
  · have h1 : ∀ e ∈ raw1, strings_ToLower U e.1 ≠ key :=
      fun e he heq => hex ⟨e, he, heq⟩
    have h2 : ∀ e ∈ raw2, strings_ToLower U e.1 ≠ key :=
      fun e he => h1 e (hperm.mem_iff.mpr he)
    simp only [MD.index]
    rw [lookup_normalise_none U key raw1 [] h1 rfl, lookup_normalise_none U key raw2 [] h2 rfl]

theorem cacheAfter_congr (U : Char → Char) (b1 b2 : Builder) (c1 c2 : Ctx)
    (hb : b1.sameCache b2) (hc : c1.sameContext c2) (hk : c1.noCollidingKeys U)
    (key : String) :
    (cacheAfter U b1 c1).index key = (cacheAfter U b2 c2).index key := by
  rcases b1 with ⟨_ | m1⟩ <;> rcases b2 with ⟨_ | m2⟩
  · rcases c1 with ⟨_ | raw1, p1⟩ <;> rcases c2 with ⟨_ | raw2, p2⟩
    · rfl
    · exact absurd hc.2 (by simp)
    · exact absurd hc.2 (by simp)
    · exact index_normalise_perm U raw1 raw2 hc.2 hk key
  · exact absurd hb (by simp [Builder.sameCache])
  · exact absurd hb (by simp [Builder.sameCache])
  · exact hb key

theorem sameCache_cacheAfter (U : Char → Char) (b1 b2 : Builder) (c1 c2 : Ctx)
    (hb : b1.sameCache b2) (hc : c1.sameContext c2) (hk : c1.noCollidingKeys U) :
    (Builder.mk (some (cacheAfter U b1 c1))).sameCache
      (Builder.mk (some (cacheAfter U b2 c2))) :=
  fun key => cacheAfter_congr U b1 b2 c1 c2 hb hc hk key

theorem connectionTier_congr (c1 c2 : Ctx) (hc : c1.sameContext c2) :
    connectionTier c1 = connectionTier c2 := by
  simp only [connectionTier, hc.1]

theorem sameCache_refl (b : Builder) : b.sameCache b := by
  rcases b with ⟨_ | m⟩
  · trivial
  · exact fun _ => rfl


/-- C11, counterexample. A context whose stored map holds both `X-Peer-Name` and
`x-peer-name`: when the run `PeerName` then `PeerIP` meets the map in one iteration order and
the run `PeerIP` then `PeerName` meets it in the other, the first returns the name `lower` and
the second the name `upper`. -/
theorem order_dependence_with_colliding_keys :
    (Ctx.mk (some [("X-Peer-Name", ["upper"]), ("x-peer-name", ["lower"])]) none).sameContext
        (Ctx.mk (some [("x-peer-name", ["lower"]), ("X-Peer-Name", ["upper"])]) none) ∧
      nameThenIP id Builder.fresh
          (some (Ctx.mk (some [("X-Peer-Name", ["upper"]), ("x-peer-name", ["lower"])]) none)) =
        .ok ("lower", "", Builder.mk (some [("x-peer-name", ["lower"])])) ∧
      ipThenName id Builder.fresh
          (some (Ctx.mk (some [("x-peer-name", ["lower"]), ("X-Peer-Name", ["upper"])]) none)) =
        .ok ("upper", "", Builder.mk (some [("x-peer-name", ["upper"])])) :=
  ⟨⟨rfl, List.Perm.swap _ _ _⟩, by rfl, by rfl⟩

/-- C11, amended. Order independence for contexts without colliding keys. Take a non-nil
context whose stored map has no two keys that lower-case alike, met by the two runs in any
two iteration orders. Starting from a fresh resolver, `PeerName` then `PeerIP` and `PeerIP`
then `PeerName` both return, with the same name, the same IP, and final cached maps that
hold the same values under every key. -/
theorem order_independence (U : Char → Char) (c1 c2 : Ctx)
    (hc : c1.sameContext c2) (hk : c1.noCollidingKeys U) :
    ∃ name ip md1 md2,
      nameThenIP U Builder.fresh (some c1) = .ok (name, ip, Builder.mk (some md1)) ∧
      ipThenName U Builder.fresh (some c2) = .ok (name, ip, Builder.mk (some md2)) ∧
      ∀ key, md1.index key = md2.index key := by
  have hidx := cacheAfter_congr U Builder.fresh Builder.fresh c1 c2
    (sameCache_refl _) hc hk
  refine ⟨_, _, _, _, nameThenIP_some U _ c1, ?_, hidx⟩
  rw [ipThenName_some]
  simp only [MD.Get, hidx, connectionTier_congr c1 c2 hc]

theorem order_independence_witness :
    (Ctx.mk (some [("X-Peer-Name", ["alice"]), ("x-client-ip", ["bad"])])
        (some (some (Peer.mk (some "198.51.100.7:4433"))))).sameContext
      (Ctx.mk (some [("x-client-ip", ["bad"]), ("X-Peer-Name", ["alice"])])
        (some (some (Peer.mk (some "198.51.100.7:4433"))))) ∧
    (Ctx.mk (some [("X-Peer-Name", ["alice"]), ("x-client-ip", ["bad"])])
        (some (some (Peer.mk (some "198.51.100.7:4433"))))).noCollidingKeys id ∧
    (∃ name ip md1 md2,
      nameThenIP id Builder.fresh
          (some (Ctx.mk (some [("X-Peer-Name", ["alice"]), ("x-client-ip", ["bad"])])
            (some (some (Peer.mk (some "198.51.100.7:4433")))))) =
        .ok (name, ip, Builder.mk (some md1)) ∧
      ipThenName id Builder.fresh
          (some (Ctx.mk (some [("x-client-ip", ["bad"]), ("X-Peer-Name", ["alice"])])
            (some (some (Peer.mk (some "198.51.100.7:4433")))))) =
        .ok (name, ip, Builder.mk (some md2)) ∧
      ∀ key, md1.index key = md2.index key) ∧
    nameThenIP id Builder.fresh
        (some (Ctx.mk (some [("X-Peer-Name", ["alice"]), ("x-client-ip", ["bad"])])
          (some (some (Peer.mk (some "198.51.100.7:4433")))))) =
      .ok ("alice", "198.51.100.7",
        Builder.mk (some [("x-client-ip", ["bad"]), ("x-peer-name", ["alice"])])) ∧
    ipThenName id Builder.fresh
        (some (Ctx.mk (some [("x-client-ip", ["bad"]), ("X-Peer-Name", ["alice"])])
          (some (some (Peer.mk (some "198.51.100.7:4433")))))) =
      .ok ("alice", "198.51.100.7",
        Builder.mk (some [("x-peer-name", ["alice"]), ("x-client-ip", ["bad"])])) :=
  ⟨⟨rfl, List.Perm.swap _ _ _⟩, by simp only [Ctx.noCollidingKeys]; decide,
    order_independence id _ _ ⟨rfl, List.Perm.swap _ _ _⟩
      (by simp only [Ctx.noCollidingKeys]; decide),
    by rfl, by rfl⟩


/-! ## The resolvers in one memory -/

theorem mapAt_alloc_old (m : Memory) (md : MD) (a : Ptr) (h : a < m.maps.length) :
    (m.alloc md).2.mapAt a = m.mapAt a := by
  simp only [Memory.alloc, Memory.mapAt]
  exact List.getD_append _ _ _ _ h

theorem mapAt_alloc_new (m : Memory) (md : MD) :
    (m.alloc md).2.mapAt (m.alloc md).1 = md := by
  simp only [Memory.alloc, Memory.mapAt]
  rw [List.getD_append_right _ _ _ _ (le_refl _)]
  simp

/-- Caching a newly allocated map in the struct at `b`: the resolver at `b` holds the map,
the memory stays well formed, every other resolver is seen as before. -/
theorem alloc_setField (m : Memory) (hwf : m.wellFormed) (b : Ptr) (md : MD) :
    ((m.alloc md).2.setField b (some (m.alloc md).1)).builder b = Builder.mk (some md) ∧
      ((m.alloc md).2.setField b (some (m.alloc md).1)).wellFormed ∧
      ∀ p, p ≠ b →
        ((m.alloc md).2.setField b (some (m.alloc md).1)).builder p = m.builder p := by
  refine ⟨?_, ?_, ?_⟩
  · have h := mapAt_alloc_new m md
    simp only [Memory.builder, Memory.setField, Memory.mapAt, if_true, Option.map_some'] at h ⊢
    rw [h]
  · intro p a hpa
    have hlen : ((m.alloc md).2.setField b (some (m.alloc md).1)).maps.length =
        m.maps.length + 1 := by
      simp [Memory.setField, Memory.alloc]
    rw [hlen]
    by_cases hp : p = b
    · have ha : a = m.maps.length := by
        simpa [Memory.setField, Memory.alloc, hp] using hpa.symm
      rw [ha]
      exact Nat.lt_succ_self _
    · have hpa2 : m.fields p = some a := by
        simpa [Memory.setField, Memory.alloc, hp] using hpa
      exact Nat.lt_succ_of_lt (hwf p a hpa2)
  · intro p hp
    simp only [Memory.builder, Memory.setField, hp, if_false]
    cases hf : m.fields p with
    | none => simp [Memory.alloc, hf]
    | some a =>
      have hlt := hwf p a hf
      have h := mapAt_alloc_old m md a hlt
      simp only [Memory.alloc, hf, Option.map_some'] at h ⊢
      simp only [Memory.mapAt] at h ⊢
      rw [h]

theorem simulates_ok {α : Type} (m m1 : Memory) (b : Ptr) (v : α) (b1 : Builder)
    (hb : m1.builder b = b1) (hwf : m1.wellFormed)
    (hframe : ∀ p, p ≠ b → m1.builder p = m.builder p) :
    simulates m b (.ok (v, b1)) (.ok (v, m1)) :=
  ⟨m1, rfl, hb, hwf, hframe⟩

theorem grpcHeaderValAt_sim (U : Char → Char) (m : Memory) (hwf : m.wellFormed) (b : Ptr)
    (ctx : Context) (key : String) :
    simulates m b ((m.builder b).grpcHeaderVal U ctx key) (grpcHeaderValAt U m b ctx key) := by
  cases hf : m.fields b with
  | some a =>
    have hb : m.builder b = Builder.mk (some (m.mapAt a)) := by
      simp [Memory.builder, hf]
    rw [hb, grpcHeaderValAt]
    by_cases hk : ctx = none ∨ key = ""
    · simp only [Builder.grpcHeaderVal, hf, bind, Except.bind, pure, Except.pure, hk,
        reduceCtorEq, if_false, if_true]
      exact simulates_ok m m b _ _ hb hwf (fun _ _ => rfl)
    · simp only [Builder.grpcHeaderVal, hf, bind, Except.bind, pure, Except.pure, hk,
        reduceCtorEq, if_false, Memory.Get]
      cases hv : MD.Get U (m.mapAt a) key with
      | nil => exact simulates_ok m m b _ _ hb hwf (fun _ _ => rfl)
      | cons v rest => exact simulates_ok m m b _ _ hb hwf (fun _ _ => rfl)
  | none =>
    have hb : m.builder b = Builder.mk none := by
      simp [Memory.builder, hf]
    rw [hb]
    cases ctx with
    | none =>
      simp [simulates, Builder.grpcHeaderVal, grpcHeaderValAt, hf,
        metadata_FromIncomingContextAt, metadata_FromIncomingContext, bind, Except.bind]
    | some c =>
      rw [grpcHeaderVal_some]
      obtain ⟨h1, h2, h3⟩ := alloc_setField m hwf b (cacheAfter U (Builder.mk none) c)
      have hrun : grpcHeaderValAt U m b (some c) key =
          .ok (if key = "" then ""
              else firstValue ((cacheAfter U (Builder.mk none) c).Get U key),
            (m.alloc (cacheAfter U (Builder.mk none) c)).2.setField b
              (some (m.alloc (cacheAfter U (Builder.mk none) c)).1)) := by
        have hfield : ((m.alloc (cacheAfter U (Builder.mk none) c)).2.setField b
            (some (m.alloc (cacheAfter U (Builder.mk none) c)).1)).fields b =
            some (m.alloc (cacheAfter U (Builder.mk none) c)).1 := by
          simp [Memory.setField]
        have hmap := mapAt_alloc_new m (cacheAfter U (Builder.mk none) c)
        have hmap2 : ((m.alloc (cacheAfter U (Builder.mk none) c)).2.setField b
            (some (m.alloc (cacheAfter U (Builder.mk none) c)).1)).mapAt
            (m.alloc (cacheAfter U (Builder.mk none) c)).1 =
            cacheAfter U (Builder.mk none) c := hmap
        cases hraw : c.incomingMD with
        | none =>
          have hc : cacheAfter U (Builder.mk none) c = [] := by simp [cacheAfter, hraw]
          rw [hc] at hfield hmap2 ⊢
          simp only [grpcHeaderValAt, hf, metadata_FromIncomingContextAt,
            metadata_FromIncomingContext, hraw, metadata_NewAt, metadata_New, List.foldl,
            bind, Except.bind, pure, Except.pure, if_true, reduceCtorEq, false_or]
          by_cases hk : key = ""
          · simp [hk]
          · simp only [hk, if_false, hfield, Memory.Get, hmap2]
            cases hv : MD.Get U [] key <;> simp [firstValue]
        | some raw =>
          have hc : cacheAfter U (Builder.mk none) c =
              raw.foldl (fun (out : MD) e => out.set (strings_ToLower U e.1) e.2) [] := by
            simp [cacheAfter, hraw]
          rw [hc] at hfield hmap2 ⊢
          simp only [grpcHeaderValAt, hf, metadata_FromIncomingContextAt,
            metadata_FromIncomingContext, hraw,
            bind, Except.bind, pure, Except.pure, if_true, reduceCtorEq, false_or]
          by_cases hk : key = ""
          · simp [hk]
          · simp only [hk, if_false, hfield, Memory.Get, hmap2]
            cases hv : MD.Get U
              (raw.foldl (fun (out : MD) e => out.set (strings_ToLower U e.1) e.2) []) key <;>
              simp [firstValue]
      rw [hrun]
      exact simulates_ok m _ b _ _ h1 h2 h3


theorem PeerNameAt_sim (U : Char → Char) (m : Memory) (hwf : m.wellFormed) (b : Ptr)
    (ctx : Context) :
    simulates m b ((m.builder b).PeerName U ctx) (PeerNameAt U m b ctx) :=
  grpcHeaderValAt_sim U m hwf b ctx "x-peer-name"

theorem PeerIPAt_sim (U : Char → Char) (m : Memory) (hwf : m.wellFormed) (b : Ptr)
    (ctx : Context) :
    simulates m b ((m.builder b).PeerIP U ctx) (PeerIPAt U m b ctx) := by
  have hs := grpcHeaderValAt_sim U m hwf b ctx "x-client-ip"
  unfold Builder.PeerIP PeerIPAt
  cases hr : (m.builder b).grpcHeaderVal U ctx "x-client-ip" with
  | error e =>
    rw [hr] at hs
    simp only [simulates] at hs
    simp [simulates, hs, bind, Except.bind]
  | ok r =>
    obtain ⟨v, b1⟩ := r
    rw [hr] at hs
    obtain ⟨m1, hm, hb, hwf1, hframe⟩ := hs
    simp only [hm, bind, Except.bind, pure, Except.pure]
    by_cases hv : v ≠ "" ∧ net_ParseIP v = true
    · simp only [hv, and_self, if_true, ne_eq, not_false_eq_true]
      exact simulates_ok m m1 b _ _ hb hwf1 hframe
    · simp only [hv, if_false]
      cases ctx with
      | none => simp [simulates, peer_FromContext]
      | some c =>
        rcases c with ⟨raw, _ | _ | ⟨_ | addr⟩⟩
        · exact simulates_ok m m1 b _ _ hb hwf1 hframe
        · exact simulates_ok m m1 b _ _ hb hwf1 hframe
        · exact simulates_ok m m1 b _ _ hb hwf1 hframe
        · simp only [peer_FromContext]
          cases hsplit : net_SplitHostPort addr with
          | error e =>
            by_cases hp : net_ParseIP addr = true
            · simp only [hp, if_true]
              exact simulates_ok m m1 b _ _ hb hwf1 hframe
            · simp only [hp, if_false]
              exact simulates_ok m m1 b _ _ hb hwf1 hframe
          | ok hostport =>
            exact simulates_ok m m1 b _ _ hb hwf1 hframe

theorem PeerInfoAt_sim (U : Char → Char) (m : Memory) (hwf : m.wellFormed) (b : Ptr)
    (ctx : Context) :
    simulates m b ((m.builder b).PeerInfo U ctx) (PeerInfoAt U m b ctx) := by
  unfold Builder.PeerInfo PeerInfoAt
  by_cases hc : ctx = none
  · simp only [hc, if_true, pure, Except.pure]
    exact simulates_ok m m b _ _ rfl hwf (fun _ _ => rfl)
  · simp only [hc, if_false, bind, Except.bind, pure, Except.pure]
    have hs := PeerNameAt_sim U m hwf b ctx
    cases hr : (m.builder b).PeerName U ctx with
    | error e =>
      rw [hr] at hs
      simp only [simulates] at hs
      simp [simulates, hs]
    | ok r =>
      obtain ⟨name, b1⟩ := r
      rw [hr] at hs
      obtain ⟨m1, hm, hb, hwf1, hframe⟩ := hs
      simp only [hm]
      have hs2 := PeerIPAt_sim U m1 hwf1 b ctx
      rw [hb] at hs2
      cases hr2 : b1.PeerIP U ctx with
      | error e =>
        rw [hr2] at hs2
        simp only [simulates] at hs2
        simp [simulates, hs2]
      | ok r2 =>
        obtain ⟨ip, b2⟩ := r2
        rw [hr2] at hs2
        obtain ⟨m2, hm2, hb2, hwf2, hframe2⟩ := hs2
        simp only [hm2]
        exact simulates_ok m m2 b _ _ hb2 hwf2
          (fun p hp => (hframe2 p hp).trans (hframe p hp))

theorem askAt_sim (U : Char → Char) (m : Memory) (hwf : m.wellFormed) (b : Ptr) (q : Query)
    (ctx : Context) :
    simulates m b ((m.builder b).ask U q ctx) (askAt U m b q ctx) := by
  cases q with
  | peerName =>
    have hs := PeerNameAt_sim U m hwf b ctx
    simp only [Builder.ask, askAt, bind, Except.bind, pure, Except.pure]
    cases hr : (m.builder b).PeerName U ctx with
    | error e =>
      rw [hr] at hs
      simp only [simulates] at hs
      simp [simulates, hs]
    | ok r =>
      rw [hr] at hs
      obtain ⟨m1, hm, hb, hwf1, hframe⟩ := hs
      simp only [hm]
      exact simulates_ok m m1 b _ _ hb hwf1 hframe
  | peerIP =>
    have hs := PeerIPAt_sim U m hwf b ctx
    simp only [Builder.ask, askAt, bind, Except.bind, pure, Except.pure]
    cases hr : (m.builder b).PeerIP U ctx with
    | error e =>
      rw [hr] at hs
      simp only [simulates] at hs
      simp [simulates, hs]
    | ok r =>
      rw [hr] at hs
      obtain ⟨m1, hm, hb, hwf1, hframe⟩ := hs
      simp only [hm]
      exact simulates_ok m m1 b _ _ hb hwf1 hframe
  | peerInfo =>
    have hs := PeerInfoAt_sim U m hwf b ctx
    simp only [Builder.ask, askAt, bind, Except.bind, pure, Except.pure]
    cases hr : (m.builder b).PeerInfo U ctx with
    | error e =>
      rw [hr] at hs
      simp only [simulates] at hs
      simp [simulates, hs]
    | ok r =>
      rw [hr] at hs
      obtain ⟨m1, hm, hb, hwf1, hframe⟩ := hs
      simp only [hm]
      exact simulates_ok m m1 b _ _ hb hwf1 hframe


theorem runMem_cons (U : Char → Char) (b : Ptr) (q : Query) (ctx : Context)
    (rest : List (Ptr × Query × Context)) (m : Memory) :
    runMem U ((b, q, ctx) :: rest) m =
      (askAt U m b q ctx).bind (fun r =>
        (runMem U rest r.2).bind (fun t => .ok ((b, r.1) :: t.1, t.2))) := by
  simp only [runMem]
  rfl

/-- Every resolver of a program run in one memory answers as it does when its own calls are
run on it alone. -/
theorem runMem_sim (U : Char → Char) (steps : List (Ptr × Query × Context)) :
    ∀ (m : Memory), m.wellFormed → ∀ (trace : List (Ptr × Answer)) (m1 : Memory),
      runMem U steps m = .ok (trace, m1) →
      m1.wellFormed ∧
        ∀ p, runOne U (callsOf p steps) (m.builder p) =
          .ok (answersOf p trace, m1.builder p) := by
  induction steps with
  | nil =>
    intro m hwf trace m1 h
    simp only [runMem, Except.ok.injEq, Prod.mk.injEq] at h
    obtain ⟨rfl, rfl⟩ := h
    exact ⟨hwf, fun p => rfl⟩
  | cons s rest ih =>
    obtain ⟨b, q, ctx⟩ := s
    intro m hwf trace m1 h
    rw [runMem_cons] at h
    have hs := askAt_sim U m hwf b q ctx
    cases hr : (m.builder b).ask U q ctx with
    | error e =>
      rw [hr] at hs
      simp only [simulates] at hs
      simp [hs, Except.bind] at h
    | ok r =>
      obtain ⟨ans, b1⟩ := r
      rw [hr] at hs
      obtain ⟨m2, hm, hb, hwf2, hframe⟩ := hs
      simp only [hm, Except.bind] at h
      cases hrest : runMem U rest m2 with
      | error e => simp [hrest] at h
      | ok t =>
        obtain ⟨tr, m3⟩ := t
        simp only [hrest, Except.ok.injEq, Prod.mk.injEq] at h
        obtain ⟨rfl, rfl⟩ := h
        obtain ⟨hwf3, hrun⟩ := ih m2 hwf2 tr m3 hrest
        refine ⟨hwf3, fun p => ?_⟩
        by_cases hp : b = p
        · subst hp
          have hc : callsOf b ((b, q, ctx) :: rest) = (q, ctx) :: callsOf b rest := by
            simp [callsOf]
          have ha : answersOf b ((b, ans) :: tr) = ans :: answersOf b tr := by
            simp [answersOf]
          rw [hc, ha, runOne_cons, hr]
          have := hrun b
          rw [hb] at this
          simp [Except.bind, this]
        · have hc : callsOf p ((b, q, ctx) :: rest) = callsOf p rest := by
            simp [callsOf, hp]
          have ha : answersOf p ((b, ans) :: tr) = answersOf p tr := by
            simp [answersOf, hp]
          rw [hc, ha, ← hframe p (fun h => hp h.symm)]
          exact hrun p

/-- A sequence of calls that runs on a resolver value also runs on the resolver at `p` in
memory, with the same answers and the same final resolver state. -/
theorem runMem_of_runOne (U : Char → Char) (p : Ptr) (calls : List (Query × Context)) :
    ∀ (m : Memory), m.wellFormed → ∀ (answers : List Answer) (b1 : Builder),
      runOne U calls (m.builder p) = .ok (answers, b1) →
      ∃ m1, runMem U (calls.map (fun c => (p, c))) m =
          .ok (answers.map (fun a => (p, a)), m1) ∧ m1.builder p = b1 := by
  induction calls with
  | nil =>
    intro m hwf answers b1 h
    simp only [runOne, Except.ok.injEq, Prod.mk.injEq] at h
    obtain ⟨rfl, rfl⟩ := h
    exact ⟨m, rfl, rfl⟩
  | cons c rest ih =>
    obtain ⟨q, ctx⟩ := c
    intro m hwf answers b1 h
    rw [runOne_cons] at h
    have hs := askAt_sim U m hwf p q ctx
    cases hr : (m.builder p).ask U q ctx with
    | error e => simp [hr, Except.bind] at h
    | ok r =>
      obtain ⟨ans, b2⟩ := r
      rw [hr] at hs
      obtain ⟨m2, hm, hb, hwf2, _⟩ := hs
      simp only [hr, Except.bind] at h
      cases hrest : runOne U rest b2 with
      | error e => simp [hrest] at h
      | ok t =>
        obtain ⟨rest_answers, b3⟩ := t
        simp only [hrest, Except.ok.injEq, Prod.mk.injEq] at h
        obtain ⟨rfl, rfl⟩ := h
        rw [← hb] at hrest
        obtain ⟨m3, hrun, hb3⟩ := ih m2 hwf2 rest_answers b3 hrest
        refine ⟨m3, ?_, hb3⟩
        simp only [List.map_cons]
        rw [runMem_cons, hm]
        simp [Except.bind, hrun]


theorem sameCache_none_left (b2 : Builder) (h : (Builder.mk none).sameCache b2) :
    b2 = Builder.mk none := by
  rcases b2 with ⟨_ | m2⟩
  · rfl
  · exact absurd h (by simp [Builder.sameCache])

theorem sameCache_some_left (m1 : MD) (b2 : Builder) (h : (Builder.mk (some m1)).sameCache b2) :
    ∃ m2, b2 = Builder.mk (some m2) := by
  rcases b2 with ⟨_ | m2⟩
  · exact absurd h (by simp [Builder.sameCache])
  · exact ⟨m2, rfl⟩

/-- The same query on two resolvers that cache the same map, on the same Go context met in
two iteration orders and free of colliding keys, gives the same answer and leaves two
resolvers that again cache the same map. -/
theorem ask_congr (U : Char → Char) (b1 b2 : Builder) (q : Query) (x y : Context)
    (hb : b1.sameCache b2) (hxy : sameCallContext x y) (hk : noCollidingKeys U x)
    (ans : Answer) (b3 : Builder) (h : b1.ask U q x = .ok (ans, b3)) :
    ∃ b4, b2.ask U q y = .ok (ans, b4) ∧ b3.sameCache b4 := by
  cases x with
  | none =>
    cases y with
    | some c2 => exact absurd hxy (by simp [sameCallContext])
    | none =>
      rcases b1 with ⟨_ | m1⟩
      · have hb2 := sameCache_none_left b2 hb
        subst hb2
        exact ⟨b3, h, sameCache_refl b3⟩
      · obtain ⟨m2, rfl⟩ := sameCache_some_left m1 b2 hb
        cases q with
        | peerName =>
          simp only [Builder.ask, Builder.PeerName, grpcHeaderVal_cached, true_or, if_true,
            bind, Except.bind, pure, Except.pure, Except.ok.injEq, Prod.mk.injEq] at h ⊢
          obtain ⟨rfl, rfl⟩ := h
          exact ⟨_, ⟨rfl, rfl⟩, hb⟩
        | peerIP =>
          have hp : (Builder.mk (some m1)).PeerIP U none = .error .nilDereference := rfl
          simp [Builder.ask, hp, bind, Except.bind] at h
        | peerInfo =>
          simp only [Builder.ask, Builder.PeerInfo, if_true, bind, Except.bind, pure,
            Except.pure, Except.ok.injEq, Prod.mk.injEq] at h ⊢
          obtain ⟨rfl, rfl⟩ := h
          exact ⟨_, ⟨rfl, rfl⟩, hb⟩
  | some c1 =>
    cases y with
    | none => exact absurd hxy (by simp [sameCallContext])
    | some c2 =>
      have hc : c1.sameContext c2 := hxy
      have hk1 : c1.noCollidingKeys U := hk
      have hidx := cacheAfter_congr U b1 b2 c1 c2 hb hc hk1
      have hcache := sameCache_cacheAfter U b1 b2 c1 c2 hb hc hk1
      have htier := connectionTier_congr c1 c2 hc
      cases q with
      | peerName =>
        simp only [Builder.ask, PeerName_some, bind, Except.bind, pure, Except.pure,
          Except.ok.injEq, Prod.mk.injEq] at h ⊢
        obtain ⟨rfl, rfl⟩ := h
        exact ⟨_, ⟨by rw [hidx], rfl⟩, hcache⟩
      | peerIP =>
        simp only [Builder.ask, PeerIP_some, bind, Except.bind, pure, Except.pure,
          Except.ok.injEq, Prod.mk.injEq] at h ⊢
        obtain ⟨rfl, rfl⟩ := h
        exact ⟨_, ⟨by simp only [MD.Get, hidx, htier], rfl⟩, hcache⟩
      | peerInfo =>
        simp only [Builder.ask, PeerInfo_some, bind, Except.bind, pure, Except.pure,
          Except.ok.injEq, Prod.mk.injEq] at h ⊢
        obtain ⟨rfl, rfl⟩ := h
        exact ⟨_, ⟨by simp only [MD.Get, hidx, htier], rfl⟩, hcache⟩

theorem runOne_congr (U : Char → Char) (calls1 : List (Query × Context)) :
    ∀ (calls2 : List (Query × Context)), sameCalls U calls1 calls2 →
      ∀ (b1 b2 : Builder), b1.sameCache b2 → ∀ (answers : List Answer) (b3 : Builder),
      runOne U calls1 b1 = .ok (answers, b3) →
      ∃ b4, runOne U calls2 b2 = .ok (answers, b4) ∧ b3.sameCache b4 := by
  induction calls1 with
  | nil =>
    intro calls2 hcalls b1 b2 hb answers b3 h
    have h2 : calls2 = [] := List.forall₂_nil_left_iff.mp hcalls
    subst h2
    simp only [runOne, Except.ok.injEq, Prod.mk.injEq] at h
    obtain ⟨rfl, rfl⟩ := h
    exact ⟨b2, rfl, hb⟩
  | cons c1 rest1 ih =>
    intro calls2 hcalls b1 b2 hb answers b3 h
    obtain ⟨c2, rest2, hhead, htail, rfl⟩ := List.forall₂_cons_left_iff.mp hcalls
    obtain ⟨q1, x⟩ := c1
    obtain ⟨q2, y⟩ := c2
    obtain ⟨hq, hxy, hk⟩ := hhead
    simp only at hq hxy hk
    subst hq
    rw [runOne_cons] at h ⊢
    cases hr : b1.ask U q1 x with
    | error e => simp [hr, Except.bind] at h
    | ok r =>
      obtain ⟨ans, b5⟩ := r
      obtain ⟨b6, hask, hb56⟩ := ask_congr U b1 b2 q1 x y hb hxy hk ans b5 hr
      simp only [hr, Except.bind] at h
      cases hrest : runOne U rest1 b5 with
      | error e => simp [hrest] at h
      | ok t =>
        obtain ⟨rest_answers, b7⟩ := t
        simp only [hrest, Except.ok.injEq, Prod.mk.injEq] at h
        obtain ⟨rfl, rfl⟩ := h
        obtain ⟨b8, hrun, hb78⟩ := ih rest2 htail b5 b6 hb56 rest_answers b7 hrest
        exact ⟨b8, by simp [hask, Except.bind, hrun], hb78⟩


theorem wellFormed_empty : Memory.empty.wellFormed := by
  intro p a h
  simp [Memory.empty] at h

/-- C16, counterexample. Instance 0 is asked `PeerName` on a context whose stored map holds
both `X-Peer-Name` and `x-peer-name`. In the program where instance 1 is queried first, and
the map is met in one iteration order, instance 0 answers `lower`; in the program without the
query on instance 1, where the map is met in the other order, it answers `upper`. -/
theorem isolation_fails_with_colliding_keys :
    (Ctx.mk (some [("X-Peer-Name", ["upper"]), ("x-peer-name", ["lower"])]) none).sameContext
        (Ctx.mk (some [("x-peer-name", ["lower"]), ("X-Peer-Name", ["upper"])]) none) ∧
      (runMem id
          [(1, Query.peerInfo, some (Ctx.mk (some [("x-peer-name", ["bob"])]) none)),
            (0, Query.peerName,
              some (Ctx.mk (some [("X-Peer-Name", ["upper"]), ("x-peer-name", ["lower"])])
                none))]
          Memory.empty).map (fun r => r.1) =
        .ok [(1, Answer.info (PeerInfo.mk "bob" "")), (0, Answer.text "lower")] ∧
      (runMem id
          [(0, Query.peerName,
              some (Ctx.mk (some [("x-peer-name", ["lower"]), ("X-Peer-Name", ["upper"])])
                none))]
          Memory.empty).map (fun r => r.1) =
        .ok [(0, Answer.text "upper")] :=
  ⟨⟨rfl, List.Perm.swap _ _ _⟩, by rfl, by rfl⟩

/-- C16, amended. Isolation of resolver instances that live in one memory. Let a program
that calls any number of resolvers in any interleaving, on any contexts, run to its end from
a well-formed memory, and let `p` be one of the resolvers. Remove from the program every call
on another resolver. (1) The remaining program runs to its end, `p` gives the same answers,
and ends with the same cached map. (2) The same holds, the final cached maps holding the same
values under every key, when the remaining calls meet the stored maps of their contexts in
other iteration orders, provided no two keys of a context `p` is called on lower-case
alike. -/
theorem instances_isolated (U : Char → Char) (steps : List (Ptr × Query × Context))
    (m : Memory) (hwf : m.wellFormed) (trace : List (Ptr × Answer)) (m1 : Memory)
    (hrun : runMem U steps m = .ok (trace, m1)) (p : Ptr) :
    (∃ m2, runMem U ((callsOf p steps).map (fun c => (p, c))) m =
        .ok ((answersOf p trace).map (fun a => (p, a)), m2) ∧
      m2.builder p = m1.builder p) ∧
    (∀ calls, sameCalls U (callsOf p steps) calls →
      ∃ m2, runMem U (calls.map (fun c => (p, c))) m =
          .ok ((answersOf p trace).map (fun a => (p, a)), m2) ∧
        (m1.builder p).sameCache (m2.builder p)) := by
  have hone := (runMem_sim U steps m hwf trace m1 hrun).2 p
  constructor
  · exact runMem_of_runOne U p _ m hwf _ _ hone
  · intro calls hcalls
    obtain ⟨b4, hrun2, hsame⟩ :=
      runOne_congr U _ calls hcalls _ _ (sameCache_refl (m.builder p)) _ _ hone
    obtain ⟨m2, hm2, hb2⟩ := runMem_of_runOne U p calls m hwf _ _ hrun2
    exact ⟨m2, hm2, by rw [hb2]; exact hsame⟩

theorem instances_isolated_witness :
    Memory.empty.wellFormed ∧
    runMem id
        [(1, Query.peerInfo,
            some (Ctx.mk (some [("x-peer-name", ["bob"])])
              (some (some (Peer.mk (some "198.51.100.7:4433")))))),
          (0, Query.peerName,
            some (Ctx.mk (some [("X-Peer-Name", ["alice"]), ("x-client-ip", ["203.0.113.5"])])
              none)),
          (1, Query.peerIP,
            some (Ctx.mk (some [("x-peer-name", ["bob"])])
              (some (some (Peer.mk (some "198.51.100.7:4433")))))),
          (0, Query.peerIP,
            some (Ctx.mk (some [("X-Peer-Name", ["alice"]), ("x-client-ip", ["203.0.113.5"])])
              none))]
        Memory.empty =
      .ok ([(1, Answer.info (PeerInfo.mk "bob" "198.51.100.7")),
            (0, Answer.text "alice"),
            (1, Answer.text "198.51.100.7"),
            (0, Answer.text "203.0.113.5")],
        (((Memory.empty.alloc [("x-peer-name", ["bob"])]).2.setField 1 (some 0)).alloc
          [("x-client-ip", ["203.0.113.5"]), ("x-peer-name", ["alice"])]).2.setField 0
            (some 1)) ∧
    (∃ m2,
      runMem id
          [(0, Query.peerName,
              some (Ctx.mk
                (some [("x-client-ip", ["203.0.113.5"]), ("X-Peer-Name", ["alice"])]) none)),
            (0, Query.peerIP,
              some (Ctx.mk
                (some [("x-client-ip", ["203.0.113.5"]), ("X-Peer-Name", ["alice"])]) none))]
          Memory.empty =
        .ok ([(0, Answer.text "alice"), (0, Answer.text "203.0.113.5")], m2) ∧
      (Builder.mk (some [("x-client-ip", ["203.0.113.5"]), ("x-peer-name", ["alice"])])).sameCache
        (m2.builder 0)) :=
  ⟨wellFormed_empty, by rfl,
    (instances_isolated id
      [(1, Query.peerInfo,
          some (Ctx.mk (some [("x-peer-name", ["bob"])])
            (some (some (Peer.mk (some "198.51.100.7:4433")))))),
        (0, Query.peerName,
          some (Ctx.mk (some [("X-Peer-Name", ["alice"]), ("x-client-ip", ["203.0.113.5"])])
            none)),
        (1, Query.peerIP,
          some (Ctx.mk (some [("x-peer-name", ["bob"])])
            (some (some (Peer.mk (some "198.51.100.7:4433")))))),
        (0, Query.peerIP,
          some (Ctx.mk (some [("X-Peer-Name", ["alice"]), ("x-client-ip", ["203.0.113.5"])])
            none))]
      Memory.empty wellFormed_empty
      [(1, Answer.info (PeerInfo.mk "bob" "198.51.100.7")),
        (0, Answer.text "alice"),
        (1, Answer.text "198.51.100.7"),
        (0, Answer.text "203.0.113.5")]
      ((((Memory.empty.alloc [("x-peer-name", ["bob"])]).2.setField 1 (some 0)).alloc
        [("x-client-ip", ["203.0.113.5"]), ("x-peer-name", ["alice"])]).2.setField 0 (some 1))
      (by rfl) 0).2
      [(Query.peerName,
          some (Ctx.mk
            (some [("x-client-ip", ["203.0.113.5"]), ("X-Peer-Name", ["alice"])]) none)),
        (Query.peerIP,
          some (Ctx.mk
            (some [("x-client-ip", ["203.0.113.5"]), ("X-Peer-Name", ["alice"])]) none))]
      (List.Forall₂.cons
        ⟨rfl, ⟨rfl, List.Perm.swap _ _ _⟩, by
          simp only [noCollidingKeys, Ctx.noCollidingKeys]; decide⟩
        (List.Forall₂.cons
          ⟨rfl, ⟨rfl, List.Perm.swap _ _ _⟩, by
            simp only [noCollidingKeys, Ctx.noCollidingKeys]; decide⟩
          List.Forall₂.nil))⟩

end Interceptor
